/-
  Verification of the Wechatsync core: declarative adapter interpreter
  (DSLAdapter in packages/core/src/adapters/base.ts, dsl-parser / loader)
  and the sync orchestrator (SyncEngine).

  The TypeScript code is shallowly embedded: JavaScript values are the
  inductive `JVal` (with an explicit `undefined` constructor, since the code
  distinguishes `undefined` from `null`), promise-returning code that can
  throw is `Except String`, and external collaborators (the transport, the
  platform registry, the HTML/Markdown converters, the custom-logic hooks)
  are oracle fields of explicit environment records, exactly as they are
  injected dependencies in the source.
-/
import Mathlib

namespace Wechatsync

/-- A JavaScript runtime value, as manipulated by the adapter interpreter.
`undefined` is JavaScript `undefined` (distinct from `null`); numbers are
modelled as rationals (the numeric literals the code parses are decimal
strings, which are exact rationals). Objects are association lists with
unique keys; the first binding wins on lookup. -/
inductive JVal where
  | undefined : JVal
  | null : JVal
  | bool : Bool → JVal
  | num : Rat → JVal
  | str : String → JVal
  | arr : List JVal → JVal
  | obj : List (String × JVal) → JVal
deriving Repr

/-- JavaScript truthiness of a value (`if (v)`). -/
def jvalTruthy : JVal → Bool
  | .undefined => false
  | .null => false
  | .bool b => b
  | .num q => !(q == 0)
  | .str s => !(s == "")
  | .arr _ => true
  | .obj _ => true

/-- Look a key up in a JavaScript object's fields (absent key ⇒ `undefined`). -/
def lookupField (fields : List (String × JVal)) (key : String) : JVal :=
  match fields.find? (fun kv => kv.1 == key) with
  | some kv => kv.2
  | none => .undefined

/-- JavaScript `s.split(sep)` for a one-character separator: splits into the
(possibly empty) groups between separator occurrences; the empty string
yields one empty group, exactly as `''.split('.')` yields `[""]`. -/
def splitOnChar (sep : Char) : List Char → List (List Char)
  | [] => [[]]
  | c :: rest =>
    match splitOnChar sep rest with
    | [] => [[]]
    | g :: gs => if c = sep then [] :: g :: gs else (c :: g) :: gs

/-- JavaScript `s.trim()`: strip whitespace from both ends. -/
def jsTrim (cs : List Char) : List Char :=
  ((cs.dropWhile Char.isWhitespace).reverse.dropWhile Char.isWhitespace).reverse

/-- How many decimal digits are needed to write `q` exactly
(`none` when `q` has no finite decimal expansion). -/
def decDigits (q : Rat) : Option Nat :=
  (List.range (q.den + 1)).find? (fun k => (q * (10 : Rat) ^ k).den == 1)

/-- JavaScript `String(n)` for a number: integers without a decimal point,
other values by their shortest exact decimal expansion (the code only ever
builds numbers from decimal literals, so the expansion is finite). -/
def jsNumString (q : Rat) : String :=
  if q.den = 1 then toString q.num
  else
    match decDigits q with
    | some k =>
      let m : Int := (q * (10 : Rat) ^ k).num
      let digits := toString m.natAbs
      let padded :=
        if digits.length < k + 1 then
          String.mk (List.replicate (k + 1 - digits.length) '0') ++ digits
        else digits
      let intPart := padded.take (padded.length - k)
      let fracPart := padded.drop (padded.length - k)
      (if m < 0 then "-" else "") ++ intPart ++ "." ++ fracPart
    | none => toString q

mutual
/-- JavaScript `String(v)`: `null` → `"null"`, `undefined` → `"undefined"`,
arrays join their elements with commas (with `null`/`undefined` elements
rendered empty, as `Array.prototype.join` does), plain objects render as
`"[object Object]"`. -/
def jsString : JVal → String
  | .undefined => "undefined"
  | .null => "null"
  | .bool b => if b then "true" else "false"
  | .num q => jsNumString q
  | .str s => s
  | .arr xs => jsStringArr xs
  | .obj _ => "[object Object]"

/-- Elements of an array joined with commas, `null`/`undefined` empty. -/
def jsStringArr : List JVal → String
  | [] => ""
  | [x] =>
    match x with
    | .undefined => ""
    | .null => ""
    | v => jsString v
  | x :: y :: rest =>
    (match x with
     | .undefined => ""
     | .null => ""
     | v => jsString v) ++ "," ++ jsStringArr (y :: rest)
end

/-- One step of JavaScript property access `current[key]`, guarded by the
source's `current && typeof current === 'object'` check: only truthy
objects (plain objects and arrays) are traversed, everything else yields
`undefined`.  [base.ts:470-480, the reduce body of `getNestedValue`] -/
def jsGet : JVal → String → JVal
  | .obj fields, key => lookupField fields key
  | .arr xs, key =>
    if key = "length" then .num xs.length
    else
      match key.toNat? with
      | some i => if h : i < xs.length then xs.get ⟨i, h⟩ else .undefined
      | none => .undefined
  | _, _ => .undefined

/-- `DSLAdapter.getNestedValue(obj, path)`: split the path on dots and
reduce with property access, starting at `obj`.  [base.ts:470-480] -/
def getNestedValue (o : JVal) (path : String) : JVal :=
  ((splitOnChar '.' path.toList).map String.mk).foldl jsGet o

/-- Scan the maximal run of non-`\x7d` characters and require it to be
followed by exactly `\x7d\x7d`: the shape matched by the builtin regex
`[^\x7d]+\x7d\x7d` part of the placeholder pattern. Returns the run and
the characters after the two closing braces. -/
def grabBody : List Char → Option (List Char × List Char)
  | [] => none
  | c :: rest =>
    if c = '\x7d' then
      if rest.head? = some '\x7d' then some ([], rest.tail) else none
    else (grabBody rest).map (fun p => (c :: p.1, p.2))

/-- Scan for the body of a `\x7b\x7b...\x7d\x7d` placeholder: one or more
non-`\x7d` characters followed by exactly `\x7d\x7d` (the shape matched by
the regex used in `DSLAdapter.interpolate` after the opening braces).
[base.ts:383] -/
def interpGrab : List Char → Option (List Char × List Char)
  | [] => none
  | c :: rest => if c = '\x7d' then none else grabBody (c :: rest)

theorem grabBody_decomp {cs content rest : List Char}
    (h : grabBody cs = some (content, rest)) :
    cs = content ++ '\x7d' :: '\x7d' :: rest ∧ '\x7d' ∉ content := by
  induction cs generalizing content rest with
  | nil => simp [grabBody] at h
  | cons c cs ih =>
    rw [grabBody] at h
    by_cases hc : c = '\x7d'
    · rw [if_pos hc] at h
      cases rest₀ : cs with
      | nil => rw [rest₀] at h; simp at h
      | cons d ds =>
        rw [rest₀] at h
        by_cases hd : d = '\x7d'
        · rw [hd] at h
          simp at h
          obtain ⟨h1, h2⟩ := h
          subst h1; subst hc; subst hd
          simp [h2]
        · simp [List.head?, hd] at h
    · rw [if_neg hc] at h
      cases hg : grabBody cs with
      | none => rw [hg] at h; simp at h
      | some p =>
        obtain ⟨content₀, rest₀⟩ := p
        rw [hg] at h
        simp only [Option.map] at h
        injection h with h
        injection h with h1 h2
        obtain ⟨hdec, hmem⟩ := ih hg
        subst h2
        constructor
        · rw [← h1, hdec]; simp
        · rw [← h1]
          intro hin
          rcases List.mem_cons.mp hin with h | h
          · exact hc h.symm
          · exact hmem h

theorem interpGrab_decomp {cs content rest : List Char}
    (h : interpGrab cs = some (content, rest)) :
    cs = content ++ '\x7d' :: '\x7d' :: rest ∧ content ≠ [] ∧ '\x7d' ∉ content := by
  match cs with
  | [] => simp [interpGrab] at h
  | c :: cs₀ =>
    rw [interpGrab] at h
    by_cases hc : c = '\x7d'
    · rw [if_pos hc] at h; exact absurd h (by simp)
    · rw [if_neg hc] at h
      obtain ⟨hdec, hmem⟩ := grabBody_decomp h
      refine ⟨hdec, ?_, hmem⟩
      intro hnil
      rw [hnil] at hdec
      simp at hdec
      exact hc hdec.1

theorem grabBody_append {p rest : List Char} (hp : '\x7d' ∉ p) :
    grabBody (p ++ '\x7d' :: '\x7d' :: rest) = some (p, rest) := by
  induction p with
  | nil => simp [grabBody]
  | cons c cs ih =>
    have hc : c ≠ '\x7d' := fun hh => hp (by rw [hh]; exact List.mem_cons_self _ _)
    have hcs : '\x7d' ∉ cs := fun hh => hp (List.mem_cons_of_mem _ hh)
    rw [List.cons_append, grabBody, if_neg hc, ih hcs]
    rfl

theorem interpGrab_append {p rest : List Char} (hne : p ≠ [])
    (hp : '\x7d' ∉ p) :
    interpGrab (p ++ '\x7d' :: '\x7d' :: rest) = some (p, rest) := by
  match p with
  | [] => exact absurd rfl hne
  | c :: cs =>
    have hc : c ≠ '\x7d' := fun hh => hp (by rw [hh]; exact List.mem_cons_self _ _)
    rw [List.cons_append, interpGrab, if_neg hc, ← List.cons_append,
      grabBody_append hp]

theorem interpGrab_length {cs content rest : List Char}
    (h : interpGrab cs = some (content, rest)) :
    rest.length + 3 ≤ cs.length := by
  obtain ⟨hdec, hne, _⟩ := interpGrab_decomp h
  rw [hdec]
  simp only [List.length_append, List.length_cons]
  have : 1 ≤ content.length := by
    cases content with
    | nil => exact absurd rfl hne
    | cons _ _ => simp
  omega

/-- The string substituted for a placeholder whose path resolved to `v`:
`value !== undefined ? String(value) : ''`.  [base.ts:385] -/
def interpValString : JVal → String
  | .undefined => ""
  | v => jsString v

/-- The scanning loop of `DSLAdapter.interpolate` (the semantics of
`template.replace(re, ...)` for the placeholder regex, with `re` global):
at each position, if the placeholder pattern matches, substitute the value
at the (trimmed) dotted path and resume after the match; otherwise emit
the character and advance one position. `fuel` bounds the number of scan
steps; one character of input is consumed per unit of fuel at minimum, so
`fuel = length of the input` always suffices.  [base.ts:379-387] -/
def interpGo (ctx : JVal) : Nat → List Char → List Char
  | 0, cs => cs
  | _ + 1, [] => []
  | fuel + 1, c :: rest =>
    match (if c = '\x7b' ∧ rest.head? = some '\x7b' then interpGrab rest.tail
           else none) with
    | some (content, rest') =>
      (interpValString (getNestedValue ctx (String.mk (jsTrim content)))).toList
        ++ interpGo ctx fuel rest'
    | none => c :: interpGo ctx fuel rest

/-- `DSLAdapter.interpolate(template, context)`.  [base.ts:379-387] -/
def interpolate (ctx : JVal) (template : String) : String :=
  String.mk (interpGo ctx template.toList.length template.toList)

/-- Fuel irrelevance: any fuel of at least the input length computes the
same result as exactly the input length. -/
theorem interpGo_fuel (ctx : JVal) :
    ∀ fuel₁ fuel₂ (cs : List Char), cs.length ≤ fuel₁ → cs.length ≤ fuel₂ →
      interpGo ctx fuel₁ cs = interpGo ctx fuel₂ cs := by
  intro fuel₁
  induction fuel₁ with
  | zero =>
    intro fuel₂ cs h₁ _
    have : cs = [] := List.length_eq_zero.mp (Nat.le_zero.mp h₁)
    subst this
    cases fuel₂ <;> rfl
  | succ n ih =>
    intro fuel₂ cs h₁ h₂
    cases cs with
    | nil => cases fuel₂ <;> rfl
    | cons c rest =>
      cases fuel₂ with
      | zero => simp at h₂
      | succ m =>
        rw [interpGo, interpGo]
        cases hg : (if c = '\x7b' ∧ rest.head? = some '\x7b' then interpGrab rest.tail
                    else none) with
        | none =>
          have hlen : rest.length ≤ n := by simp at h₁; omega
          have hlen2 : rest.length ≤ m := by simp at h₂; omega
          rw [ih m rest hlen hlen2]
        | some p =>
          obtain ⟨content, rest'⟩ := p
          have hgrab : interpGrab rest.tail = some (content, rest') := by
            by_cases hcond : c = '\x7b' ∧ rest.head? = some '\x7b'
            · rwa [if_pos hcond] at hg
            · rw [if_neg hcond] at hg; exact absurd hg (by simp)
          have hlen3 := interpGrab_length hgrab
          have htail : rest.tail.length ≤ rest.length := by
            cases rest <;> simp
          have h₁' : rest'.length ≤ n := by simp at h₁; omega
          have h₂' : rest'.length ≤ m := by simp at h₂; omega
          have hrw := ih m rest' h₁' h₂'
          simp only [hrw]

/-- A complete placeholder match occurs somewhere in the character list. -/
def hasPlaceholder : List Char → Bool
  | [] => false
  | c :: rest =>
    (c = '\x7b' && rest.head? = some '\x7b' && (interpGrab rest.tail).isSome)
      || hasPlaceholder rest

/-- A scan of a list with no placeholder match anywhere changes nothing. -/
theorem interpGo_no_placeholder (ctx : JVal) :
    ∀ fuel (cs : List Char), hasPlaceholder cs = false → interpGo ctx fuel cs = cs := by
  intro fuel
  induction fuel with
  | zero => intro cs _; rfl
  | succ n ih =>
    intro cs hnp
    cases cs with
    | nil => rfl
    | cons c rest =>
      rw [hasPlaceholder] at hnp
      simp only [Bool.or_eq_false_iff] at hnp
      obtain ⟨hhead, htail⟩ := hnp
      rw [interpGo]
      have : (if c = '\x7b' ∧ rest.head? = some '\x7b' then interpGrab rest.tail
              else none) = none := by
        by_cases hcond : c = '\x7b' ∧ rest.head? = some '\x7b'
        · rw [if_pos hcond]
          cases hg : interpGrab rest.tail with
          | none => rfl
          | some p =>
            rw [hcond.1, hcond.2, hg] at hhead
            simp at hhead
        · rw [if_neg hcond]
      rw [this]
      rw [ih rest htail]

/-- Substitution behaviour of the scanner: a template consisting of a
brace-free preamble, one complete placeholder, and a tail is rewritten to
the preamble, the stringified resolved value, and the scanned tail. -/
theorem interpGo_subst (ctx : JVal) {p post : List Char}
    (hp : p ≠ []) (hbr : '\x7d' ∉ p) :
    ∀ (pre : List Char) (fuel : Nat), '\x7b' ∉ pre →
      pre.length + p.length + post.length + 4 ≤ fuel →
      interpGo ctx fuel (pre ++ '\x7b' :: '\x7b' :: (p ++ '\x7d' :: '\x7d' :: post))
        = pre ++ (interpValString (getNestedValue ctx (String.mk (jsTrim p)))).toList
            ++ interpGo ctx post.length post := by
  intro pre
  induction pre with
  | nil =>
    intro fuel _ hlen
    match fuel, hlen with
    | f + 1, hlen =>
      rw [List.nil_append, interpGo]
      have hife :
          (if '\x7b' = '\x7b' ∧ ('\x7b' :: (p ++ '\x7d' :: '\x7d' :: post)).head? = some '\x7b'
           then interpGrab ('\x7b' :: (p ++ '\x7d' :: '\x7d' :: post)).tail
           else none) = interpGrab (p ++ '\x7d' :: '\x7d' :: post) := by
        simp [List.head?]
      rw [hife, interpGrab_append hp hbr]
      have hfuel : interpGo ctx f post = interpGo ctx post.length post := by
        apply interpGo_fuel
        · omega
        · omega
      simp only [hfuel, List.nil_append]
  | cons a pre ih =>
    intro fuel hpre hlen
    have ha : a ≠ '\x7b' := fun hh => hpre (by rw [hh]; exact List.mem_cons_self _ _)
    have hpre₀ : '\x7b' ∉ pre := fun hh => hpre (List.mem_cons_of_mem _ hh)
    match fuel, hlen with
    | f + 1, hlen =>
      rw [List.cons_append, interpGo]
      have hife :
          (if a = '\x7b' ∧ (pre ++ '\x7b' :: '\x7b' :: (p ++ '\x7d' :: '\x7d' :: post)).head? = some '\x7b'
           then interpGrab (pre ++ '\x7b' :: '\x7b' :: (p ++ '\x7d' :: '\x7d' :: post)).tail
           else none) = none := by
        simp [ha]
      rw [hife]
      have hrec := ih f hpre₀ (by simp at hlen ⊢; omega)
      simp only [hrec, List.cons_append]

example :
    interpolate (.obj [("article", .obj [("title", .str "Hi")])])
      "A \x7b\x7barticle.title\x7d\x7d B" = "A Hi B" := by rfl

example :
    interpolate (.obj [("article", .obj [("title", .str "Hi")])])
      "\x7b\x7bmissing.path\x7d\x7d" = "" := by rfl

example :
    interpolate (.obj [("draft_id", .num 42)]) "id=\x7b\x7b draft_id \x7d\x7d" = "id=42" := by rfl

/-- A character of the regex class `[.\w]` (ASCII word characters and dots). -/
def isWordDot (c : Char) : Bool :=
  c.isAlphanum || c = '_' || c = '.'

/-- The tail of a comparison expression after `==`/`!=`: semantics of the
greedy `\s*(.+)$` suffix of the regex in `evaluateJsonPath`. The greedy
whitespace run is consumed first; the captured group must be non-empty and
free of line terminators (which `.` never matches); when the whole tail is
whitespace the star backtracks one character. -/
def compareTail (tail : List Char) : Option (List Char) :=
  let cv := tail.dropWhile Char.isWhitespace
  if cv = [] then
    match tail.getLast? with
    | some c => if c = '\n' ∨ c = '\r' then none else some [c]
    | none => none
  else if '\n' ∈ cv ∨ '\r' ∈ cv then none else some cv

/-- Match of the comparison regex `^(\$[.\w]+)\s*(!=|==)\s*(.+)$` from
`DSLAdapter.evaluateJsonPath`: returns the field path (with its leading
`$`), whether the operator is `==` (`true`) or `!=` (`false`), and the raw
captured compare value.  [base.ts:420] -/
def parseComparison (cs : List Char) : Option (String × Bool × String) :=
  match cs with
  | '$' :: rest =>
    let run := rest.takeWhile isWordDot
    let after := (rest.dropWhile isWordDot).dropWhile Char.isWhitespace
    if run = [] then none
    else
      match after with
      | '=' :: '=' :: tail =>
        (compareTail tail).map (fun cv => (String.mk ('$' :: run), true, String.mk cv))
      | '!' :: '=' :: tail =>
        (compareTail tail).map (fun cv => (String.mk ('$' :: run), false, String.mk cv))
      | _ => none
  | _ => none

/-- `DSLAdapter.extractValue(path, data)`: strip a leading `$.` (or a bare
`$`) and read the nested value.  [base.ts:439-447] -/
def extractValue (path : String) (data : JVal) : JVal :=
  let normalized : String :=
    match path.toList with
    | '$' :: '.' :: rest => String.mk rest
    | '$' :: rest => String.mk rest
    | _ => path
  getNestedValue data normalized

def natOfDigits (cs : List Char) : Nat :=
  cs.foldl (fun n c => n * 10 + (c.toNat - '0'.toNat)) 0

/-- The regex `^-?\d+$` of `parseCompareValue`. -/
def isIntLit (cs : List Char) : Bool :=
  match cs with
  | '-' :: rest => !rest.isEmpty && rest.all Char.isDigit
  | _ => !cs.isEmpty && cs.all Char.isDigit

def parseIntLit (cs : List Char) : Rat :=
  match cs with
  | '-' :: rest => -(natOfDigits rest : Rat)
  | _ => (natOfDigits cs : Rat)

/-- The regex `^-?\d+\.\d+$` of `parseCompareValue`: digits, a dot, digits. -/
def isFloatCore (cs : List Char) : Bool :=
  let ip := cs.takeWhile Char.isDigit
  match cs.dropWhile Char.isDigit with
  | '.' :: fp => !ip.isEmpty && !fp.isEmpty && fp.all Char.isDigit
  | _ => false

def isFloatLit (cs : List Char) : Bool :=
  match cs with
  | '-' :: rest => isFloatCore rest
  | _ => isFloatCore cs

def parseFloatCore (cs : List Char) : Rat :=
  let ip := cs.takeWhile Char.isDigit
  match cs.dropWhile Char.isDigit with
  | '.' :: fp => (natOfDigits ip : Rat) + (natOfDigits fp : Rat) / ((10 : Rat) ^ fp.length)
  | _ => (natOfDigits ip : Rat)

def parseFloatLit (cs : List Char) : Rat :=
  match cs with
  | '-' :: rest => -(parseFloatCore rest)
  | _ => parseFloatCore cs

/-- `DSLAdapter.parseCompareValue(value)`: recognise `null`, `undefined`,
booleans, integer and decimal literals (parsed exactly — the binary
rounding of JavaScript doubles is not modelled), and quoted strings; any
other text is returned as the string itself.  [base.ts:452-465] -/
def parseCompareValue (value : String) : JVal :=
  let cs := value.toList
  if value = "null" then .null
  else if value = "undefined" then .undefined
  else if value = "true" then .bool true
  else if value = "false" then .bool false
  else if isIntLit cs then .num (parseIntLit cs)
  else if isFloatLit cs then .num (parseFloatLit cs)
  else if cs.head? = some '"' && cs.getLast? = some '"' then
    .str (String.mk ((cs.drop 1).dropLast))
  else if cs.head? = some '\'' && cs.getLast? = some '\'' then
    .str (String.mk ((cs.drop 1).dropLast))
  else .str value

/-- JavaScript strict equality `===`/`!==` between an extracted value and a
compare value. The right operand always comes from `parseCompareValue`,
which never produces an object or an array, and strict equality between an
object and any primitive is `false`, so returning `false` whenever either
side is composite is exact here. -/
def strictEq : JVal → JVal → Bool
  | .undefined, .undefined => true
  | .null, .null => true
  | .bool a, .bool b => a == b
  | .num a, .num b => a == b
  | .str a, .str b => a == b
  | _, _ => false

/-- `DSLAdapter.evaluateJsonPath(path, data)`: if the comparison regex
matches, compare the extracted field against the parsed literal (the
captured compare value is trimmed first); otherwise treat the whole
expression as a plain field path. Total: every string evaluates to a
value.  [base.ts:418-434] -/
def evaluateJsonPath (path : String) (data : JVal) : JVal :=
  match parseComparison path.toList with
  | some (fieldPath, isEq, cvRaw) =>
    let value := extractValue fieldPath data
    let parsed := parseCompareValue (String.mk (jsTrim cvRaw.toList))
    if isEq then .bool (strictEq value parsed) else .bool (!strictEq value parsed)
  | none => extractValue path data

example :
    evaluateJsonPath "$.errno == 0" (.obj [("errno", .num 0)]) = .bool true := by rfl

example :
    evaluateJsonPath "$.data.user != null" (.obj [("data", .obj [("user", .str "u")])])
      = .bool true := by rfl

example :
    evaluateJsonPath "$.code >= 0" (.obj [("code", .num 7)]) = .undefined := by rfl

example :
    evaluateJsonPath "$.msg == \x22ok\x22" (.obj [("msg", .str "ok")]) = .bool true := by rfl

mutual
/-- Recursive template interpolation over object-valued templates
(`DSLAdapter.interpolateObject`): string leaves are interpolated, nested
objects recursed into, arrays traversed as objects via their index entries
(which is what `Object.entries` over an array yields), and all other
values pass through unchanged (`null` is excluded by the source's
`value !== null` guard).  [base.ts:392-412] -/
def interpolateObject (ctx : JVal) : List (String × JVal) → List (String × JVal)
  | [] => []
  | (k, v) :: rest => (k, interpolateOEntry ctx v) :: interpolateObject ctx rest

def interpolateOEntry (ctx : JVal) : JVal → JVal
  | .str s => .str (interpolate ctx s)
  | .obj fs => .obj (interpolateObject ctx fs)
  | .arr xs => .obj (interpolateArr ctx 0 xs)
  | v => v

def interpolateArr (ctx : JVal) (i : Nat) : List JVal → List (String × JVal)
  | [] => []
  | v :: rest => (toString i, interpolateOEntry ctx v) :: interpolateArr ctx (i + 1) rest
end

/-- Consumed only by the external `processHtml` collaborator; opaque to the
workflow, which only tests presence. -/
def HtmlProcessOptions : Type := Unit

/-- Consumed only by the external `htmlToMarkdown` collaborator. -/
def TurndownOptions : Type := Unit

/-- One HTTP endpoint definition (`EndpointDef` in adapters/types.ts), with
the `request`/`response` nesting flattened into one record. -/
structure EndpointDef where
  url : String
  method : String := "GET"
  headers : List (String × String) := []
  content_type : Option String := none
  body : Option (List (String × JVal)) := none
  success : Option String := none
  extract : List (String × String) := []
  error : Option String := none

/-- The `auth` block of a definition: the mandatory auth-check endpoint. -/
structure AuthBlock where
  check : EndpointDef

/-- The named endpoints the publish workflow reads
(`dsl.endpoints.create_draft` / `update_draft` / `publish`); an absent
entry is an unsupported capability. -/
structure Endpoints where
  create_draft : Option EndpointDef := none
  update_draft : Option EndpointDef := none
  publish : Option EndpointDef := none

/-- An adapter definition (`AdapterDSL` in adapters/types.ts), restricted
to the fields the embedded workflow reads. -/
structure AdapterDSL where
  name : String
  display_name : String := ""
  icon : String := ""
  homepage : String := ""
  capabilities : List String := []
  draft_url_template : Option String := none
  auth : AuthBlock
  endpoints : Endpoints := {}
  html_processing : Option HtmlProcessOptions := none
  output_format : Option String := none
  markdown_options : Option TurndownOptions := none

/-- Modelled from the spec (§3 SyncResult; the type declaration file is not
part of the sources at hand): outcome for one platform. `postId`/`postUrl`
keep the JavaScript value copied from the response extraction (`undefined` =
field absent); `draftOnly` is set only by the draft-only branch. -/
structure SyncResult where
  platform : String
  success : Bool
  timestamp : Nat
  postId : JVal := .undefined
  postUrl : JVal := .undefined
  draftOnly : Option Bool := none
  error : Option String := none

/-- Modelled from the spec (§2/§3; the type declaration file is not part of
the sources at hand): the authored article, restricted to the fields the
workflow reads. Empty `html`/`cover` strings behave exactly like absent
ones (both are falsy where the code tests them). -/
structure Article where
  title : String := ""
  markdown : String := ""
  html : String := ""
  cover : String := ""

/-- The internal working article of `DSLAdapter.publish`
(`ArticleWithContent`): the article plus the evolving `content`, with
`cover` kept as a JavaScript value (the cover-upload hook may store a
non-string there).  [base.ts:10-12, 146-149] -/
structure ArticleW where
  title : String
  markdown : String
  html : String
  cover : JVal
  content : String

def articleWJVal (wa : ArticleW) : JVal :=
  .obj [("title", .str wa.title), ("markdown", .str wa.markdown),
        ("html", .str wa.html), ("cover", wa.cover), ("content", .str wa.content)]

/-- The execution context `{ article, draft_id }`. Before `create_draft`
runs, `draft_id` is `undefined`, which is indistinguishable from the absent
key for every lookup the interpreter performs. -/
def ctxJVal (wa : ArticleW) (draftId : JVal) : JVal :=
  .obj [("article", articleWJVal wa), ("draft_id", draftId)]

/-- A request body after content-type encoding. The three encodings of the
source (JSON serialisation, urlencoded form, multipart form) are carried
structurally: the byte-level wire format is I/O detail the workflow never
re-reads.  [base.ts:311-330] -/
inductive BuiltBody where
  | json : List (String × JVal) → BuiltBody
  | form : List (String × JVal) → BuiltBody
  | multipart : List (String × JVal) → BuiltBody

/-- The custom-logic hooks an adapter may register (`customLogic`);
`Except` models a hook that may throw.  [base.ts:111-116, 161-196, 334-342] -/
structure CustomLogic where
  process_images : Option (String → Except String String) := none
  upload_image_by_url : Option (JVal → Except String JVal) := none
  content_transform : Option (String → JVal → Except String String) := none
  before_request : Option (String → JVal → Except String (List (String × String))) := none
  prepare_body : Option (String → BuiltBody → JVal → Except String BuiltBody) := none

/-- The injected runtime collaborators of one adapter: the transport
(`runtime.fetch` as consumed through `BaseAdapter.request`, whose HTTP
and parse failures surface as thrown errors) and the external HTML/Markdown
converters. `now` is the clock read by `Date.now()`. -/
structure AdapterEnv where
  fetch : String → String → List (String × String) → Option BuiltBody → Except String JVal
  processHtml : String → String
  htmlToMarkdown : String → String
  markdownToHtml : String → String
  now : Nat := 0

/-- Object-spread merge where the second record's bindings win
(`\x7b ...a, ...b \x7d`). -/
def mergeFields (a b : List (String × JVal)) : List (String × JVal) :=
  a.filter (fun kv => (b.find? (fun kv2 => kv2.1 == kv.1)).isNone) ++ b

def mergeHeaders (a b : List (String × String)) : List (String × String) :=
  a.filter (fun kv => (b.find? (fun kv2 => kv2.1 == kv.1)).isNone) ++ b

/-- The outcome of one endpoint execution. -/
structure ExecOutcome where
  data : JVal
  extracted : List (String × JVal)

namespace DSLAdapter

/-- `DSLAdapter.executeEndpoint(endpoint, context)`: interpolate the URL,
build and interpolate the body, run the `before_request` and
`prepare_body` hooks, send the request, test the success expression
(throwing the evaluated error expression when it is falsy), and extract
the response fields.  [base.ts:303-374] -/
def executeEndpoint (env : AdapterEnv) (cl : CustomLogic)
    (endpoint : EndpointDef) (ctx : JVal) : Except String ExecOutcome := do
  let url := interpolate ctx endpoint.url
  let body0 : Option BuiltBody :=
    match endpoint.body with
    | some bodyFields =>
      let bodyData := interpolateObject ctx bodyFields
      some (match endpoint.content_type with
            | some "multipart" => .multipart bodyData
            | some "form" => .form bodyData
            | _ => .json bodyData)
    | none => none
  let headers ←
    match cl.before_request with
    | some hook => do
      let dyn ← hook url ctx
      pure (mergeHeaders endpoint.headers dyn)
    | none => pure endpoint.headers
  let body1 ←
    match body0, cl.prepare_body with
    | some b, some hook => do
      let b2 ← hook url b ctx
      pure (some b2)
    | b, _ => pure b
  let response ← env.fetch url endpoint.method headers body1
  match endpoint.success with
  | some succExpr =>
    if !jvalTruthy (evaluateJsonPath succExpr response) then
      let errorMsg : JVal :=
        match endpoint.error with
        | some errExpr => evaluateJsonPath errExpr response
        | none => .str "Request failed"
      throw (jsString errorMsg)
    else pure ()
  | none => pure ()
  let extracted := endpoint.extract.map (fun kv => (kv.1, evaluateJsonPath kv.2 response))
  pure { data := response, extracted := extracted }

/-- `DSLAdapter.checkAuth()`: run the auth-check endpoint; on success the
result is `isAuthenticated: true` spread with the extracted fields (the
spread wins on key collision); a thrown error becomes
`isAuthenticated: false` with the error message.  [base.ts:126-140] -/
def checkAuth (env : AdapterEnv) (cl : CustomLogic) (dsl : AdapterDSL) :
    List (String × JVal) :=
  match executeEndpoint env cl dsl.auth.check (.obj []) with
  | .ok res => mergeFields [("isAuthenticated", .bool true)] res.extracted
  | .error e => [("isAuthenticated", .bool false), ("error", .str e)]

/-- The steps of the publish workflow, recorded in execution order. -/
inductive Step where
  | htmlProcessing
  | processImages
  | coverUpload
  | contentTransform
  | toMarkdownStep
  | createDraft
  | updateDraft
  | draftOnlyReturn
  | publishStep
deriving DecidableEq, Repr

/-- The workflow monad: a thrown error plus the trace of executed steps
(the trace survives an abort). -/
abbrev PubM := ExceptT String (StateM (List Step))

def tell (s : Step) : PubM Unit :=
  liftM (modify (fun l => l ++ [s]) : StateM (List Step) Unit)

def liftE (e : Except String α) : PubM α :=
  match e with
  | .ok a => pure a
  | .error b => throw b

/-- `result?.src ?? result?.url ?? result?.image_url ?? ''` for a
non-string hook result.  [base.ts:176-178] -/
def coverFromResult (result : JVal) : JVal :=
  match result with
  | .str s => .str s
  | r =>
    let src := jsGet r "src"
    let url := jsGet r "url"
    let img := jsGet r "image_url"
    if !(src matches .undefined | .null) then src
    else if !(url matches .undefined | .null) then url
    else if !(img matches .undefined | .null) then img
    else .str ""

/-- JavaScript `s.replace(pattern, repl)` for a plain-string pattern:
replaces the first occurrence only (`$`-escapes in the replacement are not
modelled; no caller builds one). -/
def replaceFirstChars (pat repl : List Char) : List Char → List Char
  | [] => []
  | c :: rest =>
    if (c :: rest).take pat.length = pat then repl ++ (c :: rest).drop pat.length
    else c :: replaceFirstChars pat repl rest

def replaceFirst (s pat repl : String) : String :=
  String.mk (replaceFirstChars pat.toList repl.toList s.toList)

/-- `BaseAdapter.createResult(success, data)` with `data` merged over the
base record.  [base.ts:91-101] -/
def createResult (env : AdapterEnv) (dsl : AdapterDSL) (success : Bool)
    (postId : JVal := .undefined) (postUrl : JVal := .undefined)
    (draftOnly : Option Bool := none) (error : Option String := none) : SyncResult :=
  { platform := dsl.name, success := success, timestamp := env.now,
    postId := postId, postUrl := postUrl, draftOnly := draftOnly, error := error }

/-- Steps 1-4 of the `try` block of `DSLAdapter.publish`
(base.ts:144-205): derive the working content from `article.html` falling
back to the Markdown conversion, then optional HTML preprocessing, the
optional `process_images` hook, the optional cover upload whose failure is
caught locally (clearing the cover and proceeding), the optional
`content_transform` hook, and the optional HTML→Markdown conversion. -/
def transformStage (env : AdapterEnv) (cl : CustomLogic) (dsl : AdapterDSL)
    (article : Article) : PubM ArticleW :=
  let content0 :=
    if article.html == "" then env.markdownToHtml article.markdown else article.html
  let wa : ArticleW :=
    { title := article.title, markdown := article.markdown, html := article.html,
      cover := .str article.cover, content := content0 }
  (if dsl.html_processing.isSome then
     tell .htmlProcessing >>= fun _ =>
     pure { wa with content := env.processHtml wa.content }
   else pure wa) >>= fun wa =>
  (match cl.process_images with
   | some hook =>
     tell .processImages >>= fun _ =>
     liftE (hook wa.content) >>= fun c =>
     pure { wa with content := c }
   | none => pure wa) >>= fun wa =>
  (match cl.upload_image_by_url with
   | some hook =>
     if jvalTruthy wa.cover then
       tell .coverUpload >>= fun _ =>
       (match hook wa.cover with
        | .ok result => pure { wa with cover := coverFromResult result }
        | .error _ => pure { wa with cover := .str "" })
     else pure wa
   | none => pure wa) >>= fun wa =>
  (match cl.content_transform with
   | some hook =>
     tell .contentTransform >>= fun _ =>
     liftE (hook wa.content (ctxJVal wa .undefined)) >>= fun c =>
     pure { wa with content := c }
   | none => pure wa) >>= fun wa =>
  (if dsl.output_format = some "markdown" then
     tell .toMarkdownStep >>= fun _ =>
     pure { wa with content := env.htmlToMarkdown wa.content }
   else pure wa)

/-- The create-draft step (base.ts:207-216): run only when the
`create_draft` endpoint is declared; the extracted `draft_id` (any value,
possibly `undefined`) becomes the context's `draft_id`. -/
def createDraftStage (env : AdapterEnv) (cl : CustomLogic) (dsl : AdapterDSL)
    (wa : ArticleW) : PubM JVal :=
  match dsl.endpoints.create_draft with
  | some ep =>
    tell .createDraft >>= fun _ =>
    liftE (executeEndpoint env cl ep (ctxJVal wa .undefined)) >>= fun res =>
    pure (lookupField res.extracted "draft_id")
  | none => pure .undefined

/-- The update-draft step (base.ts:218-221): run only when `draft_id` is
truthy *and* the `update_draft` endpoint is declared. -/
def updateDraftStage (env : AdapterEnv) (cl : CustomLogic) (dsl : AdapterDSL)
    (wa : ArticleW) (draftId : JVal) : PubM Unit :=
  match dsl.endpoints.update_draft with
  | some ep =>
    if jvalTruthy draftId then
      tell .updateDraft >>= fun _ =>
      liftE (executeEndpoint env cl ep (ctxJVal wa draftId)) >>= fun _ =>
      pure ()
    else pure ()
  | none => pure ()

/-- The terminal branch (base.ts:223-250): when the caller asked for a
draft only, build the edit URL from `draft_url_template` and return with
`draftOnly: true`; otherwise run the `publish` endpoint when declared and
report the extracted post id/url; otherwise return a bare success carrying
the draft id. -/
def terminalStage (env : AdapterEnv) (cl : CustomLogic) (dsl : AdapterDSL)
    (wa : ArticleW) (draftId : JVal) (draftOnly : Bool) : PubM SyncResult :=
  if draftOnly then
    let draftUrl : JVal :=
      match dsl.draft_url_template with
      | some t =>
        if t ≠ "" ∧ jvalTruthy draftId then
          .str (replaceFirst t "\x7b\x7bdraft_id\x7d\x7d" (jsString draftId))
        else .undefined
      | none => .undefined
    tell .draftOnlyReturn >>= fun _ =>
    pure (createResult env dsl true draftId draftUrl (some true))
  else
    match dsl.endpoints.publish with
    | some ep =>
      tell .publishStep >>= fun _ =>
      liftE (executeEndpoint env cl ep (ctxJVal wa draftId)) >>= fun res =>
      pure (createResult env dsl true (lookupField res.extracted "post_id")
        (lookupField res.extracted "post_url"))
    | none =>
      pure (createResult env dsl true draftId)

/-- The body of the `try` block of `DSLAdapter.publish` (base.ts:142-250):
the content transforms, then draft creation, draft update, and the
terminal branch, strictly in source order. -/
def publishM (env : AdapterEnv) (cl : CustomLogic) (dsl : AdapterDSL)
    (article : Article) (draftOnly : Bool) : PubM SyncResult :=
  transformStage env cl dsl article >>= fun wa =>
  createDraftStage env cl dsl wa >>= fun draftId =>
  updateDraftStage env cl dsl wa draftId >>= fun _ =>
  terminalStage env cl dsl wa draftId draftOnly

/-- Run the workflow body, returning its outcome and the executed steps. -/
def publishCore (env : AdapterEnv) (cl : CustomLogic) (dsl : AdapterDSL)
    (article : Article) (draftOnly : Bool) : Except String SyncResult × List Step :=
  (publishM env cl dsl article draftOnly).run.run []

/-- `DSLAdapter.publish(article, options)`: the workflow body wrapped in
the boundary `try/catch` that converts any thrown error into
`createResult(false, \x7b error \x7d)`.  [base.ts:142-256] -/
def publish (env : AdapterEnv) (cl : CustomLogic) (dsl : AdapterDSL)
    (article : Article) (draftOnly : Bool) : SyncResult :=
  match (publishCore env cl dsl article draftOnly).1 with
  | .ok r => r
  | .error e => createResult env dsl false .undefined .undefined none (some e)

/-- The steps the workflow executed (also meaningful for aborted runs). -/
def publishSteps (env : AdapterEnv) (cl : CustomLogic) (dsl : AdapterDSL)
    (article : Article) (draftOnly : Bool) : List Step :=
  (publishCore env cl dsl article draftOnly).2

end DSLAdapter

namespace SyncEngine

/-- An adapter as the engine sees it through the registry (spec §6: any
`PlatformAdapter`, not necessarily a `DSLAdapter`): an auth probe returning
an `AuthResult` object (or throwing), and a publish returning a
`SyncResult` (or throwing). -/
structure EngineAdapter where
  checkAuth : Except String (List (String × JVal))
  publishRun : Article → Except String SyncResult

/-- Modelled from the spec (§6 Platform Registry collaborator; the registry
module is not part of the sources at hand): `get(platformId)` resolves an
initialized adapter or `undefined`, and — being awaited inside the `try`
of `syncToPlatform` — may itself throw. `now` is the clock. -/
structure EngineEnv where
  getAdapter : String → Except String (Option EngineAdapter)
  now : Nat := 0

/-- The `try` body of `SyncEngine.syncToPlatform` (engine source lines
100-124): resolve the adapter (absence is reported, not thrown), check
authentication (a falsy `isAuthenticated` is reported with the `error`
field or a login hint), then publish. -/
def syncBody (env : EngineEnv) (article : Article) (platformId : String) :
    Except String SyncResult :=
  env.getAdapter platformId >>= fun a? =>
  match a? with
  | none =>
    pure { platform := platformId, success := false, timestamp := env.now,
           error := some ("Platform \x22" ++ platformId ++ "\x22 not found") }
  | some adapter =>
    adapter.checkAuth >>= fun auth =>
    if !jvalTruthy (lookupField auth "isAuthenticated") then
      pure { platform := platformId, success := false, timestamp := env.now,
             error := some ("Not authenticated: " ++
               (if jvalTruthy (lookupField auth "error") then
                  jsString (lookupField auth "error")
                else "Please login first")) }
    else
      adapter.publishRun article

/-- `SyncEngine.syncToPlatform(article, platformId)`: the body wrapped in
the `catch` that converts any error thrown inside into a failed
`SyncResult` carrying the message.  [engine source lines 99-133] -/
def syncToPlatform (env : EngineEnv) (article : Article) (platformId : String) :
    SyncResult :=
  match syncBody env article platformId with
  | .ok r => r
  | .error e =>
    { platform := platformId, success := false, timestamp := env.now,
      error := some e }

/-- The loop of `SyncEngine.chunk` for a positive size `s + 1`: repeatedly
take `s + 1` elements. `fuel` bounds the number of iterations; at least
one element is consumed per iteration, so the input length suffices.
[engine source lines 170-176] -/
def chunkGo (s : Nat) : Nat → List α → List (List α)
  | _, [] => []
  | fuel + 1, c :: rest =>
    (c :: rest).take (s + 1) :: chunkGo s fuel (List.drop (s + 1) (c :: rest))
  | 0, _ :: _ => []

/-- `SyncEngine.chunk` for a positive size `s + 1`. -/
def chunkPos (s : Nat) (l : List α) : List (List α) :=
  chunkGo s l.length l

theorem chunkGo_fuel (s : Nat) :
    ∀ fuel₁ fuel₂ (l : List α), l.length ≤ fuel₁ → l.length ≤ fuel₂ →
      chunkGo s fuel₁ l = chunkGo s fuel₂ l := by
  intro fuel₁
  induction fuel₁ with
  | zero =>
    intro fuel₂ l h₁ _
    have : l = [] := List.length_eq_zero.mp (Nat.le_zero.mp h₁)
    subst this
    cases fuel₂ <;> rfl
  | succ n ih =>
    intro fuel₂ l h₁ h₂
    cases l with
    | nil => cases fuel₂ <;> rfl
    | cons c rest =>
      cases fuel₂ with
      | zero => simp at h₂
      | succ m =>
        show _ :: _ = _ :: _
        rw [ih m (List.drop (s + 1) (c :: rest))
          (by simp at h₁ ⊢; omega) (by simp at h₂ ⊢; omega)]

/-- `SyncEngine.chunk(array, size)`. The source's loop (`i += size`) never
terminates when `size = 0`; that case is modelled as the empty batch list
and every theorem about `sync` assumes a positive concurrency. -/
def chunk (l : List α) (size : Nat) : List (List α) :=
  match size with
  | 0 => []
  | s + 1 => chunkPos s l

/-- The batch loop of `SyncEngine.sync`: each batch maps `syncToPlatform`
over its platforms (`Promise.all` over the batch; the embedding is the
deterministic sequential elaboration of it), appends the batch results,
and — when `continueOnError` is false and some result of the just-finished
batch failed — stops before scheduling any later batch.
[engine source lines 70-85] -/
def runBatches (env : EngineEnv) (article : Article) (continueOnError : Bool) :
    List (List String) → List SyncResult
  | [] => []
  | b :: bs =>
    if !continueOnError && (b.map (syncToPlatform env article)).any (fun r => !r.success) then
      b.map (syncToPlatform env article)
    else b.map (syncToPlatform env article) ++ runBatches env article continueOnError bs

/-- `SyncOptions` (`onProgress` is a pure notification and does not feed
back into the results; it is not modelled). -/
structure SyncOptions where
  concurrency : Option Nat := none
  continueOnError : Option Bool := none

/-- `SyncTask`. `id` generation (timestamp + random suffix) is opaque to
every property of interest and is modelled as a fixed tag. -/
structure SyncTask where
  id : String
  article : Article
  platforms : List String
  status : String
  results : List SyncResult
  createdAt : Nat
  completedAt : Option Nat := none

/-- The closed vocabulary of `SyncTask.status` in the source:
`'pending' | 'running' | 'completed' | 'failed'`. -/
def statusValues : List String := ["pending", "running", "completed", "failed"]

/-- `SyncEngine.sync(article, platforms, options)`: defaults
(`concurrency = 3`, `continueOnError = true`), batch partition, the batch
loop, and the final status — `completed` iff every collected result
succeeded, else `failed`. The `try/catch` of the source around the loop
only rethrows into `status = 'failed'`; the loop body cannot throw (every
per-platform error is already converted by `syncToPlatform`), so the
branch is unreachable and the embedding is the `try` body.
[engine source lines 44-94] -/
def sync (env : EngineEnv) (article : Article) (platforms : List String)
    (options : SyncOptions) : SyncTask :=
  let concurrency := options.concurrency.getD 3
  let continueOnError := options.continueOnError.getD true
  let results := runBatches env article continueOnError (chunk platforms concurrency)
  let status := if results.all (fun r => r.success) then "completed" else "failed"
  { id := "task", article := article, platforms := platforms, status := status,
    results := results, createdAt := env.now, completedAt := some env.now }

end SyncEngine

/-- Platform metadata derived from a definition (`PlatformMeta`). -/
structure PlatformMeta where
  id : String
  name : String
  icon : String
  homepage : String
  capabilities : List String

namespace DslParser

/-- Approximation of `z.string().url()` (which accepts what `new URL`
accepts): an absolute URL — a non-empty alphabetic scheme, `://`, and a
non-empty remainder. Every example in this development uses plain
`https` URLs, for which the two notions agree. -/
def isUrlString (s : String) : Bool :=
  let cs := s.toList
  let scheme := cs.takeWhile (fun c => c ≠ ':')
  match cs.drop scheme.length with
  | ':' :: '/' :: '/' :: rest =>
    !scheme.isEmpty && scheme.all Char.isAlpha && !rest.isEmpty
  | _ => false

def methodEnum : List String := ["GET", "POST", "PUT", "PATCH", "DELETE"]

def contentTypeEnum : List String := ["json", "form", "multipart"]

def capabilityEnum : List String :=
  ["article", "draft", "image_upload", "categories", "tags", "cover", "schedule"]

/-- `z.record(z.string())`: an object whose values are all strings. -/
def parseStringRecord (label : String) (v : JVal) :
    Except String (List (String × String)) :=
  match v with
  | .obj fields =>
    fields.mapM (fun kv =>
      match kv.2 with
      | .str s => .ok (kv.1, s)
      | _ => .error (label ++ ": expected string value"))
  | _ => .error (label ++ ": expected object")

def parseOptString (label : String) (v : JVal) : Except String (Option String) :=
  match v with
  | .undefined => .ok none
  | .str s => .ok (some s)
  | _ => .error (label ++ ": expected string")

/-- `EndpointSchema.parse`: the structural validation the dsl-parser module
declares with zod. Note that `response.success`, `response.error` and the
`response.extract` values are validated as *plain strings only*
(`z.string()`); no expression-shape check exists.  [dsl-parser lines 9-22] -/
def parseEndpointJson (v : JVal) : Except String EndpointDef := do
  match v with
  | .obj fields => do
    let req ←
      match lookupField fields "request" with
      | .obj rf => pure rf
      | _ => throw "request: expected object"
    let url ←
      match lookupField req "url" with
      | .str s => pure s
      | _ => throw "request.url: expected string"
    let method ←
      match lookupField req "method" with
      | .str m =>
        if m ∈ methodEnum then pure m
        else throw "request.method: invalid enum value"
      | _ => throw "request.method: expected string"
    let headers ←
      match lookupField req "headers" with
      | .undefined => pure []
      | hv => parseStringRecord "request.headers" hv
    let contentType ←
      match lookupField req "content_type" with
      | .undefined => pure none
      | .str ct =>
        if ct ∈ contentTypeEnum then pure (some ct)
        else throw "request.content_type: invalid enum value"
      | _ => throw "request.content_type: expected string"
    let body ←
      match lookupField req "body" with
      | .undefined => pure none
      | .obj bs => pure (some bs)
      | _ => throw "request.body: expected object"
    let resp ←
      match lookupField fields "response" with
      | .obj rf => pure rf
      | _ => throw "response: expected object"
    let success ← liftExcept (parseOptString "response.success" (lookupField resp "success"))
    let extract ←
      match lookupField resp "extract" with
      | .undefined => pure []
      | ev => parseStringRecord "response.extract" ev
    let error ← liftExcept (parseOptString "response.error" (lookupField resp "error"))
    pure { url := url, method := method, headers := headers,
           content_type := contentType, body := body, success := success,
           extract := extract, error := error }
  | _ => throw "endpoint: expected object"

/-- `AdapterDSLSchema.parse`: the whole-definition validation.
`header_rules` and `custom_logic` are validated and then discarded (the
embedded workflow never reads them); unknown keys are stripped, exactly as
zod's default object mode does — in particular `draft_url_template`,
`html_processing`, `output_format` and `markdown_options` are *not* part
of the schema and never survive `parseDSL`.  [dsl-parser lines 24-54] -/
def parseAdapterJson (v : JVal) : Except String AdapterDSL := do
  match v with
  | .obj fields => do
    let name ←
      match lookupField fields "name" with
      | .str s => pure s
      | _ => throw "name: expected string"
    let displayName ←
      match lookupField fields "display_name" with
      | .str s => pure s
      | _ => throw "display_name: expected string"
    let icon ←
      match lookupField fields "icon" with
      | .str s => pure s
      | _ => throw "icon: expected string"
    let homepage ←
      match lookupField fields "homepage" with
      | .str s => if isUrlString s then pure s else throw "homepage: invalid url"
      | _ => throw "homepage: expected string"
    let capabilities ←
      match lookupField fields "capabilities" with
      | .arr xs =>
        xs.mapM (fun x =>
          match x with
          | .str c =>
            if c ∈ capabilityEnum then Except.ok c
            else Except.error "capabilities: invalid enum value"
          | _ => Except.error "capabilities: expected string")
      | _ => throw "capabilities: expected array"
    let authCheck ←
      match lookupField fields "auth" with
      | .obj af => parseEndpointJson (lookupField af "check")
      | _ => throw "auth: expected object"
    let endpointsRaw ←
      match lookupField fields "endpoints" with
      | .obj ef =>
        ef.filterMap (fun kv => if kv.2 matches .undefined then none else some kv)
          |>.mapM (fun kv => do
            let ep ← parseEndpointJson kv.2
            pure (kv.1, ep))
      | _ => throw "endpoints: expected object"
    match lookupField fields "header_rules" with
    | .undefined => pure ()
    | .arr rules =>
      rules.forM (fun r =>
        match r with
        | .obj rf => do
          match lookupField rf "url_filter" with
          | .str _ => pure ()
          | _ => throw "header_rules.url_filter: expected string"
          let _ ← parseStringRecord "header_rules.headers" (lookupField rf "headers")
          match lookupField rf "resource_types" with
          | .undefined => pure ()
          | .arr ts =>
            ts.forM (fun t =>
              match t with
              | .str _ => Except.ok ()
              | _ => Except.error "header_rules.resource_types: expected string")
          | _ => throw "header_rules.resource_types: expected array"
        | _ => throw "header_rules: expected object")
    | _ => throw "header_rules: expected array"
    match lookupField fields "custom_logic" with
    | .undefined => pure ()
    | cv =>
      let _ ← parseStringRecord "custom_logic" cv
      pure ()
    let findEp (k : String) : Option EndpointDef :=
      (endpointsRaw.find? (fun kv => kv.1 == k)).map (fun kv => kv.2)
    pure { name := name, display_name := displayName, icon := icon,
           homepage := homepage, capabilities := capabilities,
           draft_url_template := none,
           auth := { check := authCheck },
           endpoints := { create_draft := findEp "create_draft",
                          update_draft := findEp "update_draft",
                          publish := findEp "publish" },
           html_processing := none, output_format := none,
           markdown_options := none }
  | _ => throw "definition: expected object"

/-- `parseDSL(yamlContent)`, taken after the external YAML parser has
produced the document value: validate against the schema.
[dsl-parser lines 59-63] -/
def parseDSL (doc : JVal) : Except String AdapterDSL :=
  parseAdapterJson doc

/-- `createAdapterFromDSL`: the registry entry's metadata (the factory
closure carries no data of its own).  [dsl-parser lines 68-82] -/
def createAdapterFromDSL (dsl : AdapterDSL) : PlatformMeta :=
  { id := dsl.name, name := dsl.display_name, icon := dsl.icon,
    homepage := dsl.homepage, capabilities := dsl.capabilities }

/-- `parseDSLFiles(files)` over already-YAML-parsed documents: a per-item
`try/catch` that logs the failing path and then *re-throws*, so the first
invalid item aborts the whole `map` and no entry is returned.
[dsl-parser lines 87-99] -/
def parseDSLFiles (files : List (String × JVal)) :
    Except String (List PlatformMeta) :=
  files.mapM (fun file =>
    match parseDSL file.2 with
    | .ok dsl => .ok (createAdapterFromDSL dsl)
    | .error e => .error e)

/-- `loadAdapter(dsl)`: build the entry and register it (the registry is
the accumulated entry list).  [loader lines 8-11] -/
def loadAdapter (registry : List PlatformMeta) (dsl : AdapterDSL) :
    List PlatformMeta :=
  registry ++ [createAdapterFromDSL dsl]

/-- `loadAdapters(adapters)`: per-item registration inside a `try/catch`
that logs and continues. `loadAdapter` on an already-validated definition
cannot throw (building the entry is pure record construction), so every
item registers.  [loader lines 16-24] -/
def loadAdapters (registry : List PlatformMeta) (adapters : List AdapterDSL) :
    List PlatformMeta :=
  adapters.foldl loadAdapter registry

end DslParser

namespace SpecGrammar

/-- Modelled from the spec: the supported expression grammar of §4.2 —
a plain field path `$.a.b` (or `a.b`). Written from the spec's words, for
comparison against what the source actually validates. -/
def specFieldPath (cs : List Char) : Bool :=
  match cs with
  | '$' :: rest => !rest.isEmpty && rest.all isWordDot
  | _ => !cs.isEmpty && cs.all isWordDot

/-- Modelled from the spec: a comparison literal of §4.2 — `null`,
`undefined`, `true`, `false`, an integer, a float, or a quoted string. -/
def specLiteral (cs : List Char) : Bool :=
  cs = "null".toList || cs = "undefined".toList || cs = "true".toList ||
  cs = "false".toList || isIntLit cs || isFloatLit cs ||
  (cs.length ≥ 2 && cs.head? = some '"' && cs.getLast? = some '"') ||
  (cs.length ≥ 2 && cs.head? = some '\'' && cs.getLast? = some '\'')

/-- Find the first `==` or `!=` and split around it. -/
def splitAtOp : List Char → Option (List Char × List Char)
  | [] => none
  | '=' :: '=' :: rest => some ([], rest)
  | '!' :: '=' :: rest => some ([], rest)
  | c :: rest => (splitAtOp rest).map (fun p => (c :: p.1, p.2))

/-- Modelled from the spec: "supports two forms — (1) plain field-path
`$.a.b` (or `a.b`) ...; (2) comparison `<path> (==|!=) <literal>` where
literal is one of null, undefined, true, false, an integer, a float, or a
quoted string". Whitespace around the operator is allowed, as in every
example the spec gives. -/
def specExprInGrammar (s : String) : Bool :=
  let cs := s.toList
  specFieldPath cs ||
    (match splitAtOp cs with
     | some (l, r) => specFieldPath (jsTrim l) && specLiteral (jsTrim r)
     | none => false)

end SpecGrammar

namespace DSLAdapter

/-- Run a workflow computation from a given step trace. -/
def runPubM (m : PubM α) (s : List Step) : Except String α × List Step :=
  (m.run).run s

theorem runPubM_bind (a : PubM α) (f : α → PubM β) (s : List Step) :
    runPubM (a >>= f) s =
      match runPubM a s with
      | (.ok x, s') => runPubM (f x) s'
      | (.error e, s') => (.error e, s') := by
  show runPubM (ExceptT.bind a f) s = _
  unfold runPubM ExceptT.bind
  cases h : (a.run).run s with
  | mk r s' =>
    cases r with
    | ok x =>
      simp only [ExceptT.run_mk, StateT.run]
      show ((a.run >>= ExceptT.bindCont f) : StateM (List Step) _) s = _
      rw [show ((a.run >>= ExceptT.bindCont f) : StateM (List Step) _) s
            = ExceptT.bindCont f ((a.run : StateM (List Step) _) s).1
                ((a.run : StateM (List Step) _) s).2 from rfl]
      rw [show ((a.run : StateM (List Step) _) s) = (a.run).run s from rfl, h]
      rfl
    | error e =>
      simp only [ExceptT.run_mk, StateT.run]
      show ((a.run >>= ExceptT.bindCont f) : StateM (List Step) _) s = _
      rw [show ((a.run >>= ExceptT.bindCont f) : StateM (List Step) _) s
            = ExceptT.bindCont f ((a.run : StateM (List Step) _) s).1
                ((a.run : StateM (List Step) _) s).2 from rfl]
      rw [show ((a.run : StateM (List Step) _) s) = (a.run).run s from rfl, h]
      rfl

theorem runPubM_pure (a : α) (s : List Step) :
    runPubM (pure a : PubM α) s = (.ok a, s) := rfl

theorem runPubM_tell (st : Step) (s : List Step) :
    runPubM (tell st) s = (.ok (), s ++ [st]) := rfl

theorem runPubM_liftE (e : Except String α) (s : List Step) :
    runPubM (liftE e) s =
      match e with
      | .ok a => (.ok a, s)
      | .error b => (.error b, s) := by
  cases e <;> rfl

theorem runPubM_throw (e : String) (s : List Step) :
    runPubM (throw e : PubM α) s = (.error e, s) := rfl

theorem runPubM_map (f : α → β) (a : PubM α) (s : List Step) :
    runPubM (f <$> a) s =
      match runPubM a s with
      | (.ok x, s') => (.ok (f x), s')
      | (.error e, s') => (.error e, s') := by
  rw [map_eq_pure_bind, runPubM_bind]
  cases h : runPubM a s with
  | mk r s' => cases r <;> simp [runPubM_pure]

/-- `m` only ever appends steps satisfying `P` to the trace. -/
def TraceOnly (P : Step → Prop) (m : PubM α) : Prop :=
  ∀ s, ∃ ts, (runPubM m s).2 = s ++ ts ∧ ∀ x ∈ ts, P x

theorem traceOnly_pure (P : Step → Prop) (a : α) : TraceOnly P (pure a : PubM α) :=
  fun s => ⟨[], by simp [runPubM_pure], by simp⟩

theorem traceOnly_tell {P : Step → Prop} {st : Step} (h : P st) :
    TraceOnly P (tell st) :=
  fun s => ⟨[st], by simp [runPubM_tell], by simpa⟩

theorem traceOnly_liftE (P : Step → Prop) (e : Except String α) :
    TraceOnly P (liftE e) :=
  fun s => ⟨[], by cases e <;> simp [runPubM_liftE], by simp⟩

theorem traceOnly_throw (P : Step → Prop) (e : String) :
    TraceOnly P (throw e : PubM α) :=
  fun s => ⟨[], by simp [runPubM_throw], by simp⟩

theorem traceOnly_bind {P : Step → Prop} {a : PubM α} {f : α → PubM β}
    (ha : TraceOnly P a) (hf : ∀ x, TraceOnly P (f x)) :
    TraceOnly P (a >>= f) := by
  intro s
  obtain ⟨ts, hts, hmem⟩ := ha s
  rw [runPubM_bind]
  cases hr : runPubM a s with
  | mk r s' =>
    rw [hr] at hts
    simp only at hts
    subst hts
    cases r with
    | ok x =>
      obtain ⟨ts', hts', hmem'⟩ := hf x (s ++ ts)
      refine ⟨ts ++ ts', ?_, ?_⟩
      · simp only [hts', List.append_assoc]
      · intro x hx
        rcases List.mem_append.mp hx with h | h
        · exact hmem x h
        · exact hmem' x h
    | error e => exact ⟨ts, rfl, hmem⟩

/-- `m` never throws. -/
def NoThrow (m : PubM α) : Prop :=
  ∀ s, ∃ a, (runPubM m s).1 = .ok a

theorem noThrow_pure (a : α) : NoThrow (pure a : PubM α) :=
  fun s => ⟨a, by simp [runPubM_pure]⟩

theorem noThrow_tell (st : Step) : NoThrow (tell st) :=
  fun s => ⟨(), by simp [runPubM_tell]⟩

theorem noThrow_bind {a : PubM α} {f : α → PubM β}
    (ha : NoThrow a) (hf : ∀ x, NoThrow (f x)) :
    NoThrow (a >>= f) := by
  intro s
  obtain ⟨x, hx⟩ := ha s
  rw [runPubM_bind]
  cases hr : runPubM a s with
  | mk r s' =>
    rw [hr] at hx
    simp only at hx
    subst hx
    exact hf x s'

/-- The content-transform stage only logs transform steps — it never logs a
draft/publish/terminal step. -/
theorem transformStage_traceOnly (env : AdapterEnv) (cl : CustomLogic)
    (dsl : AdapterDSL) (article : Article) :
    TraceOnly
      (fun x => x = .htmlProcessing ∨ x = .processImages ∨ x = .coverUpload ∨
                x = .contentTransform ∨ x = .toMarkdownStep)
      (transformStage env cl dsl article) := by
  unfold transformStage
  apply traceOnly_bind
  · split
    · exact traceOnly_bind (traceOnly_tell (by simp)) (fun _ => traceOnly_pure _ _)
    · exact traceOnly_pure _ _
  intro wa1
  apply traceOnly_bind
  · split
    · apply traceOnly_bind (traceOnly_tell (by simp))
      intro _
      exact traceOnly_bind (traceOnly_liftE _ _) (fun _ => traceOnly_pure _ _)
    · exact traceOnly_pure _ _
  intro wa2
  apply traceOnly_bind
  · split
    · split
      · apply traceOnly_bind (traceOnly_tell (by simp))
        intro _
        split <;> exact traceOnly_pure _ _
      · exact traceOnly_pure _ _
    · exact traceOnly_pure _ _
  intro wa3
  apply traceOnly_bind
  · split
    · apply traceOnly_bind (traceOnly_tell (by simp))
      intro _
      exact traceOnly_bind (traceOnly_liftE _ _) (fun _ => traceOnly_pure _ _)
    · exact traceOnly_pure _ _
  intro wa4
  split
  · exact traceOnly_bind (traceOnly_tell (by simp)) (fun _ => traceOnly_pure _ _)
  · exact traceOnly_pure _ _

/-- With no throwing content hooks configured, the transform stage always
succeeds (the cover-upload hook may still run and fail, but its failure is
caught locally). -/
theorem transformStage_noThrow (env : AdapterEnv) (cl : CustomLogic)
    (dsl : AdapterDSL) (article : Article)
    (hpi : cl.process_images = none) (hct : cl.content_transform = none) :
    NoThrow (transformStage env cl dsl article) := by
  unfold transformStage
  rw [hpi, hct]
  apply noThrow_bind
  · split
    · exact noThrow_bind (noThrow_tell _) (fun _ => noThrow_pure _)
    · exact noThrow_pure _
  intro wa1
  apply noThrow_bind
  · exact noThrow_pure _
  intro wa2
  apply noThrow_bind
  · split
    · split
      · apply noThrow_bind (noThrow_tell _)
        intro _
        split <;> exact noThrow_pure _
      · exact noThrow_pure _
    · exact noThrow_pure _
  intro wa3
  apply noThrow_bind
  · exact noThrow_pure _
  intro wa4
  split
  · exact noThrow_bind (noThrow_tell _) (fun _ => noThrow_pure _)
  · exact noThrow_pure _

theorem createDraftStage_traceOnly (env : AdapterEnv) (cl : CustomLogic)
    (dsl : AdapterDSL) (wa : ArticleW) :
    TraceOnly (fun x => x = .createDraft) (createDraftStage env cl dsl wa) := by
  unfold createDraftStage
  split
  · apply traceOnly_bind
    · exact traceOnly_tell (by simp)
    · intro _
      exact traceOnly_bind (traceOnly_liftE _ _) (fun _ => traceOnly_pure _ _)
  · exact traceOnly_pure _ _

theorem updateDraftStage_traceOnly (env : AdapterEnv) (cl : CustomLogic)
    (dsl : AdapterDSL) (wa : ArticleW) (draftId : JVal) :
    TraceOnly (fun x => x = .updateDraft)
      (updateDraftStage env cl dsl wa draftId) := by
  unfold updateDraftStage
  split
  · split
    · apply traceOnly_bind
      · exact traceOnly_tell (by simp)
      · intro _
        exact traceOnly_bind (traceOnly_liftE _ _) (fun _ => traceOnly_pure _ _)
    · exact traceOnly_pure _ _
  · exact traceOnly_pure _ _

/-- The create-draft step is logged exactly when the endpoint is declared. -/
theorem createDraftStage_trace (env : AdapterEnv) (cl : CustomLogic)
    (dsl : AdapterDSL) (wa : ArticleW) (s : List Step) :
    (runPubM (createDraftStage env cl dsl wa) s).2 =
      s ++ (if dsl.endpoints.create_draft.isSome then [Step.createDraft] else []) := by
  unfold createDraftStage
  cases h : dsl.endpoints.create_draft with
  | none => simp [h, runPubM_pure]
  | some ep =>
    rw [runPubM_bind, runPubM_tell]
    simp only [h, Option.isSome_some, if_true]
    rw [runPubM_bind, runPubM_liftE]
    cases executeEndpoint env cl ep (ctxJVal wa .undefined) <;> simp [runPubM_pure]

/-- When create-draft is absent, the stage is skipped without any error and
the draft id stays `undefined`. -/
theorem createDraftStage_none (env : AdapterEnv) (cl : CustomLogic)
    (dsl : AdapterDSL) (wa : ArticleW) (s : List Step)
    (h : dsl.endpoints.create_draft = none) :
    runPubM (createDraftStage env cl dsl wa) s = (.ok .undefined, s) := by
  unfold createDraftStage
  rw [h]
  exact runPubM_pure _ _

/-- When create-draft is declared and its execution succeeds, the stage
yields the `draft_id` extracted from the response. -/
theorem createDraftStage_some_ok (env : AdapterEnv) (cl : CustomLogic)
    (dsl : AdapterDSL) (wa : ArticleW) (s : List Step) (ep : EndpointDef)
    (res : ExecOutcome) (h : dsl.endpoints.create_draft = some ep)
    (hex : executeEndpoint env cl ep (ctxJVal wa .undefined) = .ok res) :
    runPubM (createDraftStage env cl dsl wa) s =
      (.ok (lookupField res.extracted "draft_id"), s ++ [Step.createDraft]) := by
  unfold createDraftStage
  rw [h, runPubM_bind, runPubM_tell]
  simp only
  rw [runPubM_bind, runPubM_liftE, hex]
  exact runPubM_pure _ _

/-- The update-draft step is logged exactly when the endpoint is declared
and the draft id is truthy. -/
theorem updateDraftStage_trace (env : AdapterEnv) (cl : CustomLogic)
    (dsl : AdapterDSL) (wa : ArticleW) (draftId : JVal) (s : List Step) :
    (runPubM (updateDraftStage env cl dsl wa draftId) s).2 =
      s ++ (if dsl.endpoints.update_draft.isSome ∧ jvalTruthy draftId then
              [Step.updateDraft] else []) := by
  unfold updateDraftStage
  cases h : dsl.endpoints.update_draft with
  | none => simp [runPubM_pure]
  | some ep =>
    by_cases ht : jvalTruthy draftId
    · cases hex : executeEndpoint env cl ep (ctxJVal wa draftId) <;>
        simp [ht, hex, runPubM_bind, runPubM_tell, runPubM_liftE, runPubM_pure,
          runPubM_map]
    · simp [ht, runPubM_pure]

/-- When update-draft is absent, the stage is skipped without any error. -/
theorem updateDraftStage_none (env : AdapterEnv) (cl : CustomLogic)
    (dsl : AdapterDSL) (wa : ArticleW) (draftId : JVal) (s : List Step)
    (h : dsl.endpoints.update_draft = none) :
    runPubM (updateDraftStage env cl dsl wa draftId) s = (.ok (), s) := by
  unfold updateDraftStage
  rw [h]
  exact runPubM_pure _ _

/-- With `draftOnly = false` and no `publish` endpoint, the terminal branch
is the bare success carrying the draft id: no `draftOnly` flag, no
`postUrl`, and no terminal step logged. -/
theorem terminalStage_no_publish (env : AdapterEnv) (cl : CustomLogic)
    (dsl : AdapterDSL) (wa : ArticleW) (draftId : JVal) (s : List Step)
    (hp : dsl.endpoints.publish = none) :
    runPubM (terminalStage env cl dsl wa draftId false) s =
      (.ok (createResult env dsl true draftId), s) := by
  unfold terminalStage
  rw [if_neg (by simp), hp]
  exact runPubM_pure _ _

end DSLAdapter

namespace SyncEngine

theorem chunkPos_nil (s : Nat) : chunkPos s ([] : List α) = [] := rfl

theorem chunkPos_cons (s : Nat) (c : α) (rest : List α) :
    chunkPos s (c :: rest) =
      (c :: rest).take (s + 1) :: chunkPos s (List.drop (s + 1) (c :: rest)) := by
  show _ :: chunkGo s rest.length (List.drop (s + 1) (c :: rest)) = _
  unfold chunkPos
  rw [chunkGo_fuel s rest.length (List.drop (s + 1) (c :: rest)).length
    (List.drop (s + 1) (c :: rest)) (by simp) le_rfl]

/-- Chunking with a positive size partitions the list: the batches
concatenate back to the input in order. -/
theorem chunkPos_flatten (s : Nat) (l : List α) : (chunkPos s l).flatten = l := by
  have key : ∀ n (l : List α), l.length ≤ n → (chunkPos s l).flatten = l := by
    intro n
    induction n with
    | zero =>
      intro l hl
      have : l = [] := List.length_eq_zero.mp (Nat.le_zero.mp hl)
      subst this
      simp [chunkPos_nil]
    | succ n ih =>
      intro l hl
      cases l with
      | nil => simp [chunkPos_nil]
      | cons c rest =>
        rw [chunkPos_cons]
        simp only [List.flatten_cons]
        rw [ih (List.drop (s + 1) (c :: rest)) (by simp at hl ⊢; omega)]
        exact List.take_append_drop _ _
  exact key l.length l le_rfl

theorem chunk_flatten (l : List α) (c : Nat) (hc : 0 < c) :
    (chunk l c).flatten = l := by
  cases c with
  | zero => omega
  | succ s => exact chunkPos_flatten s l

/-- Concurrency one partitions into singleton batches. -/
theorem chunk_one (l : List α) : chunk l 1 = l.map (fun x => [x]) := by
  show chunkPos 0 l = _
  induction l with
  | nil => simp [chunkPos_nil]
  | cons c rest ih => rw [chunkPos_cons]; simp [ih]

/-- With `continueOnError = true` every batch runs: the results are the
concatenation of all batches' results. -/
theorem runBatches_all (env : EngineEnv) (article : Article)
    (bs : List (List String)) :
    runBatches env article true bs =
      bs.flatten.map (syncToPlatform env article) := by
  induction bs with
  | nil => simp [runBatches]
  | cons b rest ih => simp [runBatches, ih]

/-- With `continueOnError = false`, once a batch contains a failure the
loop stops after appending that batch's results: the results are exactly
the batches up to and including the first failing one. -/
theorem runBatches_stop (env : EngineEnv) (article : Article)
    (pre : List (List String)) (b : List String) (post : List (List String))
    (hpre : ∀ batch ∈ pre, ∀ r ∈ batch.map (syncToPlatform env article),
      r.success = true)
    (hfail : ∃ r ∈ b.map (syncToPlatform env article), r.success = false) :
    runBatches env article false (pre ++ b :: post) =
      (pre.flatten ++ b).map (syncToPlatform env article) := by
  induction pre with
  | nil =>
    obtain ⟨r, hr, hrs⟩ := hfail
    rw [List.nil_append, runBatches, if_pos]
    · simp
    · simp only [Bool.not_false, Bool.true_and]
      exact List.any_eq_true.mpr ⟨r, hr, by simp [hrs]⟩
  | cons batch pre ih =>
    have hb : ∀ r ∈ batch.map (syncToPlatform env article), r.success = true :=
      hpre batch (List.mem_cons_self _ _)
    rw [List.cons_append, runBatches, if_neg]
    · rw [ih (fun bt hbt => hpre bt (List.mem_cons_of_mem _ hbt))]
      simp [List.flatten_cons]
    · simp only [Bool.not_false, Bool.true_and]
      rw [Bool.not_eq_true, List.any_eq_false]
      intro r hr
      simp [hb r hr]

/-- With concurrency one the results are always an input-order prefix of
the per-platform results, the whole list when `continueOnError` is true. -/
theorem runBatches_one (env : EngineEnv) (article : Article) (co : Bool)
    (l : List String) :
    ∃ k, runBatches env article co (l.map (fun x => [x])) =
        (l.take k).map (syncToPlatform env article)
      ∧ (co = true → k = l.length) := by
  induction l with
  | nil => exact ⟨0, by simp [runBatches], fun _ => rfl⟩
  | cons p rest ih =>
    obtain ⟨k, hk, hco⟩ := ih
    by_cases hstop : (!co && !(syncToPlatform env article p).success) = true
    · refine ⟨1, ?_, ?_⟩
      · rw [List.map_cons, runBatches, if_pos (by simpa using hstop)]
        simp
      · intro hco2
        rw [hco2] at hstop
        simp at hstop
    · refine ⟨k + 1, ?_, fun hco2 => by simp [hco hco2]⟩
      rw [List.map_cons, runBatches, if_neg (by simpa using hstop)]
      simp [hk]

end SyncEngine

theorem toList_append (a b : String) : (a ++ b).toList = a.toList ++ b.toList := by
  cases a with
  | mk da => cases b with
    | mk db => rfl

theorem mk_append (a b : List Char) : String.mk (a ++ b) = String.mk a ++ String.mk b := rfl

theorem mk_append3 (a b : String) (c : List Char) :
    String.mk (a.toList ++ b.toList ++ c) = a ++ b ++ String.mk c := by
  cases a with
  | mk da => cases b with
    | mk db => rfl

theorem toList_ne_nil {p : String} (hp : p ≠ "") : p.toList ≠ [] := by
  intro h
  apply hp
  cases p with
  | mk d =>
    simp only [String.toList] at h
    rw [show d = ([] : List Char) from h]

/-- C5. For every template and context, `interpolate` replaces each
`\x7b\x7b a.b.c \x7d\x7d` occurrence with the stringified value at the
(trimmed) dotted path in the context (an absent path — `getNestedValue`
returning `undefined` — renders as the empty string, second conjunct), and
a template in which the placeholder pattern matches nowhere is returned
unchanged (third conjunct). The function is total by construction: no
input throws. -/
theorem C5_interpolate_spec (ctx : JVal) (pre p post tmpl : String)
    (hpre : '\x7b' ∉ pre.toList) (hp : p ≠ "") (hbr : '\x7d' ∉ p.toList)
    (htm : hasPlaceholder tmpl.toList = false) :
    interpolate ctx (pre ++ "\x7b\x7b" ++ p ++ "\x7d\x7d" ++ post)
        = pre ++ interpValString (getNestedValue ctx (String.mk (jsTrim p.toList)))
            ++ interpolate ctx post
    ∧ (getNestedValue ctx (String.mk (jsTrim p.toList)) = .undefined →
        interpolate ctx ("\x7b\x7b" ++ p ++ "\x7d\x7d") = "")
    ∧ interpolate ctx tmpl = tmpl := by
  have key : ∀ (preL postL : List Char), '\x7b' ∉ preL →
      interpGo ctx (preL ++ '\x7b' :: '\x7b' :: (p.toList ++ '\x7d' :: '\x7d' :: postL)).length
          (preL ++ '\x7b' :: '\x7b' :: (p.toList ++ '\x7d' :: '\x7d' :: postL))
        = preL ++ (interpValString (getNestedValue ctx (String.mk (jsTrim p.toList)))).toList
            ++ interpGo ctx postL.length postL := by
    intro preL postL hpre2
    apply interpGo_subst ctx (toList_ne_nil hp) hbr preL _ hpre2
    simp only [List.length_append, List.length_cons]
    omega
  refine ⟨?_, ?_, ?_⟩
  · have hL : (pre ++ "\x7b\x7b" ++ p ++ "\x7d\x7d" ++ post).toList
        = pre.toList ++ '\x7b' :: '\x7b' :: (p.toList ++ '\x7d' :: '\x7d' :: post.toList) := by
      simp only [toList_append, List.append_assoc]
      rfl
    unfold interpolate
    rw [hL, key pre.toList post.toList hpre]
    exact mk_append3 pre (interpValString (getNestedValue ctx (String.mk (jsTrim p.toList))))
      (interpGo ctx post.toList.length post.toList)
  · intro hundef
    have hL : ("\x7b\x7b" ++ p ++ "\x7d\x7d").toList
        = [] ++ '\x7b' :: '\x7b' :: (p.toList ++ '\x7d' :: '\x7d' :: ([] : List Char)) := by
      simp only [toList_append, List.append_assoc]
      rfl
    unfold interpolate
    rw [hL, key [] [] (by simp), hundef]
    rfl
  · unfold interpolate
    rw [interpGo_no_placeholder ctx _ _ htm]
    rfl

def c5ctx : JVal := .obj [("a", .obj [("b", .str "v")])]

/-- Witness for C5 at a concrete context and template. -/
theorem C5_interpolate_spec_witness :
    (interpolate c5ctx ("A " ++ "\x7b\x7b" ++ "a.b" ++ "\x7d\x7d" ++ "!")
        = "A " ++ interpValString (getNestedValue c5ctx (String.mk (jsTrim "a.b".toList)))
            ++ interpolate c5ctx "!"
      ∧ (getNestedValue c5ctx (String.mk (jsTrim "a.b".toList)) = .undefined →
          interpolate c5ctx ("\x7b\x7b" ++ "a.b" ++ "\x7d\x7d") = "")
      ∧ interpolate c5ctx "plain text" = "plain text")
    ∧ interpolate c5ctx ("A " ++ "\x7b\x7b" ++ "a.b" ++ "\x7d\x7d" ++ "!") = "A v!" :=
  ⟨C5_interpolate_spec c5ctx "A " "a.b" "!" "plain text"
      (by decide) (by decide) (by decide) (by decide),
    rfl⟩

/-- C10. `DSLAdapter.checkAuth` is total at its interface: whatever the
auth-check endpoint execution yields, it returns an `AuthResult` object —
on success `isAuthenticated: true` spread-merged with the extracted
fields, on a thrown error `isAuthenticated: false` with the error's
message — and it never rethrows (it is a plain function into the result
type; both cases below are exhaustive over `Except`). -/
theorem C10_checkAuth_total (env : AdapterEnv) (cl : CustomLogic) (dsl : AdapterDSL) :
    (∀ res, DSLAdapter.executeEndpoint env cl dsl.auth.check (.obj []) = .ok res →
      DSLAdapter.checkAuth env cl dsl
        = mergeFields [("isAuthenticated", .bool true)] res.extracted)
    ∧ (∀ e, DSLAdapter.executeEndpoint env cl dsl.auth.check (.obj []) = .error e →
      DSLAdapter.checkAuth env cl dsl
        = [("isAuthenticated", .bool false), ("error", .str e)]) := by
  constructor
  · intro res h
    unfold DSLAdapter.checkAuth
    rw [h]
  · intro e h
    unfold DSLAdapter.checkAuth
    rw [h]

def noHooks : CustomLogic := {}

def failEnv : AdapterEnv :=
  { fetch := fun _ _ _ _ => .error "HTTP 401: Unauthorized",
    processHtml := id, htmlToMarkdown := id, markdownToHtml := id }

def okEnv : AdapterEnv :=
  { fetch := fun _ _ _ _ => .ok (.obj [("id", .str "d1"), ("ok", .bool true),
      ("uname", .str "alice")]),
    processHtml := id, htmlToMarkdown := id, markdownToHtml := id }

def authEp : EndpointDef :=
  { url := "https://x.example/me", extract := [("username", "$.uname")] }

def authDsl : AdapterDSL :=
  { name := "p", auth := { check := authEp } }

/-- Witness for C10: the 401 transport failure becomes
`isAuthenticated: false` with the message; the successful probe becomes
`isAuthenticated: true` plus the extracted username. -/
theorem C10_checkAuth_total_witness :
    DSLAdapter.checkAuth failEnv noHooks authDsl
      = [("isAuthenticated", .bool false), ("error", .str "HTTP 401: Unauthorized")]
    ∧ DSLAdapter.checkAuth okEnv noHooks authDsl
      = mergeFields [("isAuthenticated", .bool true)] [("username", .str "alice")] :=
  ⟨(C10_checkAuth_total failEnv noHooks authDsl).2 "HTTP 401: Unauthorized" rfl,
   (C10_checkAuth_total okEnv noHooks authDsl).1
     { data := .obj [("id", .str "d1"), ("ok", .bool true), ("uname", .str "alice")],
       extracted := [("username", .str "alice")] } rfl⟩

def okAdapter (p : String) : SyncEngine.EngineAdapter :=
  { checkAuth := .ok [("isAuthenticated", .bool true)],
    publishRun := fun _ => .ok { platform := p, success := true, timestamp := 0 } }

def allOkEngine : SyncEngine.EngineEnv :=
  { getAdapter := fun p => .ok (some (okAdapter p)) }

def emptyArticle : Article := {}

/-- Counterexample for C4: the status vocabulary of `SyncTask` contains no
cancelled state at all, and a run over one platform that succeeds ends
`completed` — the orchestrator source has no cancellation flag, no
cancellation input, and no code path producing a `Cancelled` outcome. -/
theorem C4_counterexample :
    "cancelled" ∉ SyncEngine.statusValues
    ∧ "Cancelled" ∉ SyncEngine.statusValues
    ∧ (SyncEngine.sync allOkEngine emptyArticle ["a"] {}).status = "completed"
    ∧ (SyncEngine.sync allOkEngine emptyArticle ["a"] {}).status ≠ "cancelled" := by
  refine ⟨by decide, by decide, rfl, by decide⟩

/-- C4 as the code forces it to be amended: `SyncEngine.sync` maintains no
cancellation flag. Its result status is always `completed` or `failed`
(both in the source's status vocabulary), and with the default
`continueOnError` every platform of every batch is processed to the end —
nothing in the orchestrator can observe a cancellation request or convert
a completion into a `Cancelled` outcome. -/
theorem C4_no_cancellation (env : SyncEngine.EngineEnv) (article : Article)
    (platforms : List String) (opts : SyncEngine.SyncOptions)
    (hc : 0 < opts.concurrency.getD 3) :
    ((SyncEngine.sync env article platforms opts).status = "completed"
      ∨ (SyncEngine.sync env article platforms opts).status = "failed")
    ∧ (SyncEngine.sync env article platforms opts).status ∈ SyncEngine.statusValues
    ∧ (opts.continueOnError.getD true = true →
        (SyncEngine.sync env article platforms opts).results
          = platforms.map (SyncEngine.syncToPlatform env article)) := by
  refine ⟨?_, ?_, ?_⟩
  · unfold SyncEngine.sync
    by_cases h : (SyncEngine.runBatches env article (opts.continueOnError.getD true)
        (SyncEngine.chunk platforms (opts.concurrency.getD 3))).all (fun r => r.success)
    · left; simp [h]
    · right; simp [h]
  · unfold SyncEngine.sync
    by_cases h : (SyncEngine.runBatches env article (opts.continueOnError.getD true)
        (SyncEngine.chunk platforms (opts.concurrency.getD 3))).all (fun r => r.success)
    · simp [h, SyncEngine.statusValues]
    · simp [h, SyncEngine.statusValues]
  · intro hco
    unfold SyncEngine.sync
    simp only [hco]
    rw [SyncEngine.runBatches_all, SyncEngine.chunk_flatten _ _ hc]

/-- Witness for C4 at a concrete run: two platforms, both batches run. -/
theorem C4_no_cancellation_witness :
    ((SyncEngine.sync allOkEngine emptyArticle ["a", "b"] {}).status = "completed"
      ∨ (SyncEngine.sync allOkEngine emptyArticle ["a", "b"] {}).status = "failed")
    ∧ (SyncEngine.sync allOkEngine emptyArticle ["a", "b"] {}).status
        ∈ SyncEngine.statusValues
    ∧ ((({} : SyncEngine.SyncOptions).continueOnError.getD true) = true →
        (SyncEngine.sync allOkEngine emptyArticle ["a", "b"] {}).results
          = ["a", "b"].map (SyncEngine.syncToPlatform allOkEngine emptyArticle)) :=
  C4_no_cancellation allOkEngine emptyArticle ["a", "b"] {} (by decide)

/-- An endpoint document whose `response.success` expression is the given
string — the fixture showing that the schema never inspects its shape. -/
def endpointJsonWithSuccess (s : String) : JVal :=
  .obj [("request", .obj [("url", .str "https://api.example.com/check"),
          ("method", .str "GET")]),
        ("response", .obj [("success", .str s)])]

/-- A complete adapter definition document whose success expression
`$.code >= 0` is outside the supported expression grammar. -/
def c7doc : JVal :=
  .obj [("name", .str "badexpr"),
        ("display_name", .str "Bad Expr"),
        ("icon", .str "i.png"),
        ("homepage", .str "https://example.com"),
        ("capabilities", .arr [.str "article"]),
        ("auth", .obj [("check", endpointJsonWithSuccess "$.code >= 0")]),
        ("endpoints", .obj [])]

/-- Counterexample for C7: `$.code >= 0` is not in the supported grammar
(neither a plain field path nor a supported comparison), yet loading a
definition that contains it *succeeds* — no `ExpressionInvalid` arises at
definition-validation time, because the schema validates expressions as
plain strings. At run time the evaluator silently treats it as a field
path and yields `undefined` instead of failing. -/
theorem C7_counterexample :
    SpecGrammar.specExprInGrammar "$.code >= 0" = false
    ∧ (DslParser.parseDSL c7doc).isOk = true
    ∧ (DslParser.parseEndpointJson (endpointJsonWithSuccess "$.code >= 0")).isOk = true
    ∧ evaluateJsonPath "$.code >= 0" (.obj [("code", .num 7)]) = .undefined := by
  refine ⟨by decide, rfl, rfl, rfl⟩

/-- C7 as the code forces it to be amended: definition-time validation
accepts *any* string as a success expression (first conjunct — the parse
succeeds for every `s`, with `s` passed through unvalidated), and run-time
evaluation never fails on an unsupported shape — an expression the
comparison regex does not match is evaluated as a plain field path
(second conjunct; `evaluateJsonPath` is total by construction). -/
theorem C7_validation_accepts_any_string :
    (∀ s : String, DslParser.parseEndpointJson (endpointJsonWithSuccess s)
        = .ok { url := "https://api.example.com/check", method := "GET",
                headers := [], content_type := none, body := none,
                success := some s, extract := [], error := none })
    ∧ (∀ (path : String) (data : JVal), parseComparison path.toList = none →
        evaluateJsonPath path data = extractValue path data) := by
  constructor
  · intro s
    rfl
  · intro path data h
    unfold evaluateJsonPath
    rw [h]

/-- Witness for C7 at the concrete out-of-grammar expression. -/
theorem C7_validation_accepts_any_string_witness :
    DslParser.parseEndpointJson (endpointJsonWithSuccess "$.code >= 0")
      = .ok { url := "https://api.example.com/check", method := "GET",
              headers := [], content_type := none, body := none,
              success := some "$.code >= 0", extract := [], error := none }
    ∧ evaluateJsonPath "$.code >= 0" (.obj [("code", .num 7)])
        = extractValue "$.code >= 0" (.obj [("code", .num 7)]) :=
  ⟨C7_validation_accepts_any_string.1 "$.code >= 0",
   C7_validation_accepts_any_string.2 "$.code >= 0" (.obj [("code", .num 7)]) rfl⟩

def epCreate : EndpointDef :=
  { url := "https://x.example/create", method := "POST",
    success := some "$.ok == true", extract := [("draft_id", "$.id")] }

def epUpdate : EndpointDef :=
  { url := "https://x.example/update/\x7b\x7bdraft_id\x7d\x7d", method := "POST" }

/-- A platform declaring only `update_draft` (no `create_draft`). -/
def updateOnlyDsl : AdapterDSL :=
  { name := "p9", auth := { check := authEp },
    endpoints := { update_draft := some epUpdate } }

/-- A drafts-capable platform with `create_draft` and `update_draft` but no
`publish` endpoint. -/
def draftsDsl : AdapterDSL :=
  { name := "pd", auth := { check := authEp },
    draft_url_template := some "https://x.example/edit/\x7b\x7bdraft_id\x7d\x7d",
    endpoints := { create_draft := some epCreate, update_draft := some epUpdate } }

/-- Counterexample for C9: a definition whose `update_draft` endpoint
exists but whose `create_draft` is absent. The claim says the update-draft
step runs exactly when the endpoint exists; in the code it additionally
requires a truthy extracted `draft_id`, so here no step at all runs and
the workflow still succeeds. -/
theorem C9_counterexample :
    updateOnlyDsl.endpoints.update_draft.isSome = true
    ∧ DSLAdapter.publishSteps okEnv noHooks updateOnlyDsl emptyArticle false = []
    ∧ (DSLAdapter.publish okEnv noHooks updateOnlyDsl emptyArticle false).success = true := by
  refine ⟨rfl, rfl, rfl⟩

/-- C9 as the code forces it to be amended: the create-draft step runs
exactly when `create_draft` is declared (first conjunct); the update-draft
step runs exactly when `update_draft` is declared *and* the draft id is
truthy (second conjunct); an absent endpoint skips the step without
raising (third and fourth conjuncts); and the `draft_id` extracted by a
successful `create_draft` is exactly the value the workflow threads to the
following stages (fifth conjunct — `publishM` feeds it to
`updateDraftStage` and `terminalStage`). -/
theorem C9_draft_step_conditions (env : AdapterEnv) (cl : CustomLogic)
    (dsl : AdapterDSL) (wa : ArticleW) (draftId : JVal) (s : List DSLAdapter.Step)
    (ep : EndpointDef) (res : ExecOutcome) :
    ((DSLAdapter.runPubM (DSLAdapter.createDraftStage env cl dsl wa) s).2
        = s ++ (if dsl.endpoints.create_draft.isSome
                then [DSLAdapter.Step.createDraft] else []))
    ∧ ((DSLAdapter.runPubM (DSLAdapter.updateDraftStage env cl dsl wa draftId) s).2
        = s ++ (if dsl.endpoints.update_draft.isSome ∧ jvalTruthy draftId
                then [DSLAdapter.Step.updateDraft] else []))
    ∧ (dsl.endpoints.create_draft = none →
        DSLAdapter.runPubM (DSLAdapter.createDraftStage env cl dsl wa) s = (.ok .undefined, s))
    ∧ (dsl.endpoints.update_draft = none →
        DSLAdapter.runPubM (DSLAdapter.updateDraftStage env cl dsl wa draftId) s
          = (.ok (), s))
    ∧ (dsl.endpoints.create_draft = some ep →
        DSLAdapter.executeEndpoint env cl ep (ctxJVal wa .undefined) = .ok res →
        DSLAdapter.runPubM (DSLAdapter.createDraftStage env cl dsl wa) s
          = (.ok (lookupField res.extracted "draft_id"),
             s ++ [DSLAdapter.Step.createDraft])) :=
  ⟨DSLAdapter.createDraftStage_trace env cl dsl wa s,
   DSLAdapter.updateDraftStage_trace env cl dsl wa draftId s,
   fun h => DSLAdapter.createDraftStage_none env cl dsl wa s h,
   fun h => DSLAdapter.updateDraftStage_none env cl dsl wa draftId s h,
   fun h hex => DSLAdapter.createDraftStage_some_ok env cl dsl wa s ep res h hex⟩

def waW : ArticleW :=
  { title := "", markdown := "", html := "", cover := .str "", content := "" }

def resW : ExecOutcome :=
  { data := .obj [("id", .str "d1"), ("ok", .bool true), ("uname", .str "alice")],
    extracted := [("draft_id", .str "d1")] }

/-- Witness for C9 at concrete definitions: with `create_draft` declared
its step is logged and the draft id `d1` extracted; with it absent the
stage yields `undefined` without error; with `update_draft` absent that
stage is a no-op. -/
theorem C9_draft_step_conditions_witness :
    ((DSLAdapter.runPubM (DSLAdapter.createDraftStage okEnv noHooks draftsDsl waW) []).2
        = [] ++ (if draftsDsl.endpoints.create_draft.isSome
                 then [DSLAdapter.Step.createDraft] else []))
    ∧ DSLAdapter.runPubM (DSLAdapter.createDraftStage okEnv noHooks draftsDsl waW) []
        = (.ok (lookupField resW.extracted "draft_id"), [] ++ [DSLAdapter.Step.createDraft])
    ∧ DSLAdapter.runPubM (DSLAdapter.createDraftStage okEnv noHooks updateOnlyDsl waW) []
        = (.ok .undefined, [])
    ∧ DSLAdapter.runPubM (DSLAdapter.updateDraftStage okEnv noHooks authDsl waW (.str "d1")) []
        = (.ok (), []) :=
  ⟨(C9_draft_step_conditions okEnv noHooks draftsDsl waW .undefined [] epCreate resW).1,
   (C9_draft_step_conditions okEnv noHooks draftsDsl waW .undefined [] epCreate resW).2.2.2.2
     rfl rfl,
   (C9_draft_step_conditions okEnv noHooks updateOnlyDsl waW .undefined [] epCreate resW).2.2.1
     rfl,
   (C9_draft_step_conditions okEnv noHooks authDsl waW (.str "d1") [] epCreate resW).2.2.2.1
     rfl⟩

namespace DSLAdapter

theorem runPubM_bind_ok {a : PubM α} {f : α → PubM β} {s s' : List Step} {x : α}
    (h : runPubM a s = (.ok x, s')) :
    runPubM (a >>= f) s = runPubM (f x) s' := by
  rw [runPubM_bind, h]

theorem runPubM_bind_error {a : PubM α} {f : α → PubM β} {s s' : List Step}
    {e : String} (h : runPubM a s = (.error e, s')) :
    runPubM (a >>= f) s = (.error e, s') := by
  rw [runPubM_bind, h]

end DSLAdapter


/-- Counterexample for C3: a platform with `create_draft` and
`update_draft` but no `publish` endpoint (and a `draft_url_template`),
published with `draftOnly = false`. The workflow does stop after the
update-draft step, but the result's `draftOnly` flag is *not* forced true
— it is absent — and `postUrl` is *not* built from the template — it is
`undefined`; the code returns the bare success `\x7b postId: draftId \x7d`. -/
theorem C3_counterexample :
    draftsDsl.endpoints.publish = none
    ∧ draftsDsl.endpoints.create_draft.isSome = true
    ∧ draftsDsl.endpoints.update_draft.isSome = true
    ∧ draftsDsl.draft_url_template.isSome = true
    ∧ DSLAdapter.publishSteps okEnv noHooks draftsDsl emptyArticle false
        = [DSLAdapter.Step.createDraft, DSLAdapter.Step.updateDraft]
    ∧ (DSLAdapter.publish okEnv noHooks draftsDsl emptyArticle false).draftOnly ≠ some true
    ∧ (DSLAdapter.publish okEnv noHooks draftsDsl emptyArticle false).postUrl = .undefined
    ∧ (DSLAdapter.publish okEnv noHooks draftsDsl emptyArticle false).success = true
    ∧ (DSLAdapter.publish okEnv noHooks draftsDsl emptyArticle false).postId = .str "d1" := by
  refine ⟨rfl, rfl, rfl, rfl, rfl, by decide, rfl, rfl, rfl⟩

/-- C3 as the code forces it to be amended: with no `publish` endpoint and
`draftOnly = false`, a workflow that completes returns the bare success —
`success = true`, the `draftOnly` flag *unset* and `postUrl` *unset* (the
template URL is built only in the `draftOnly = true` branch) — and
neither terminal step is logged (the run stops after the update-draft
step). -/
theorem C3_no_publish_endpoint (env : AdapterEnv) (cl : CustomLogic)
    (dsl : AdapterDSL) (article : Article) (r : SyncResult)
    (hp : dsl.endpoints.publish = none)
    (hok : (DSLAdapter.publishCore env cl dsl article false).1 = .ok r) :
    r.success = true ∧ r.draftOnly = none ∧ r.postUrl = .undefined
    ∧ DSLAdapter.Step.draftOnlyReturn ∉ (DSLAdapter.publishCore env cl dsl article false).2
    ∧ DSLAdapter.Step.publishStep ∉ (DSLAdapter.publishCore env cl dsl article false).2 := by
  have hcore : DSLAdapter.publishCore env cl dsl article false
      = DSLAdapter.runPubM (DSLAdapter.publishM env cl dsl article false) [] := rfl
  rw [hcore] at hok ⊢
  unfold DSLAdapter.publishM at hok ⊢
  cases ht : DSLAdapter.runPubM (DSLAdapter.transformStage env cl dsl article) [] with
  | mk rt s1 =>
    cases rt with
    | error e =>
      rw [DSLAdapter.runPubM_bind_error ht] at hok
      exact absurd hok (by simp)
    | ok wa =>
      rw [DSLAdapter.runPubM_bind_ok ht] at hok ⊢
      cases hc : DSLAdapter.runPubM (DSLAdapter.createDraftStage env cl dsl wa) s1 with
      | mk rc s2 =>
        cases rc with
        | error e =>
          rw [DSLAdapter.runPubM_bind_error hc] at hok
          exact absurd hok (by simp)
        | ok d =>
          rw [DSLAdapter.runPubM_bind_ok hc] at hok ⊢
          cases hu : DSLAdapter.runPubM
              (DSLAdapter.updateDraftStage env cl dsl wa d) s2 with
          | mk ru s3 =>
            cases ru with
            | error e =>
              rw [DSLAdapter.runPubM_bind_error hu] at hok
              exact absurd hok (by simp)
            | ok u =>
              rw [DSLAdapter.runPubM_bind_ok hu] at hok ⊢
              rw [DSLAdapter.terminalStage_no_publish env cl dsl wa d s3 hp] at hok ⊢
              simp only [Except.ok.injEq] at hok
              subst hok
              obtain ⟨ts1, hs1, hm1⟩ :=
                DSLAdapter.transformStage_traceOnly env cl dsl article []
              obtain ⟨ts2, hs2, hm2⟩ :=
                DSLAdapter.createDraftStage_traceOnly env cl dsl wa s1
              obtain ⟨ts3, hs3, hm3⟩ :=
                DSLAdapter.updateDraftStage_traceOnly env cl dsl wa d s2
              rw [ht] at hs1
              rw [hc] at hs2
              rw [hu] at hs3
              simp only at hs1 hs2 hs3
              subst hs1; subst hs2; subst hs3
              refine ⟨rfl, rfl, rfl, ?_, ?_⟩
              · intro hmem
                simp only [List.nil_append, List.mem_append] at hmem
                rcases hmem with (h | h) | h
                · rcases hm1 _ h with h5 | h5 | h5 | h5 | h5 <;> exact absurd h5 (by simp)
                · exact absurd (hm2 _ h) (by simp)
                · exact absurd (hm3 _ h) (by simp)
              · intro hmem
                simp only [List.nil_append, List.mem_append] at hmem
                rcases hmem with (h | h) | h
                · rcases hm1 _ h with h5 | h5 | h5 | h5 | h5 <;> exact absurd h5 (by simp)
                · exact absurd (hm2 _ h) (by simp)
                · exact absurd (hm3 _ h) (by simp)

/-- Witness for C3: the concrete drafts-only platform run of the
counterexample fixture, reaching the bare-success return. -/
theorem C3_no_publish_endpoint_witness :
    (DSLAdapter.publish okEnv noHooks draftsDsl emptyArticle false).success = true
    ∧ (DSLAdapter.publish okEnv noHooks draftsDsl emptyArticle false).draftOnly = none
    ∧ (DSLAdapter.publish okEnv noHooks draftsDsl emptyArticle false).postUrl = .undefined := by
  have h := C3_no_publish_endpoint okEnv noHooks draftsDsl emptyArticle
    (DSLAdapter.publish okEnv noHooks draftsDsl emptyArticle false) rfl rfl
  exact ⟨h.1, h.2.1, h.2.2.1⟩

/-- A hook set whose cover-upload hook always throws. -/
def throwingCoverHooks : CustomLogic :=
  { upload_image_by_url := some (fun _ => .error "boom") }

def coverArticle : Article := { title := "t", cover := "https://img.example/c.png" }

/-- Counterexample for C1: the cover-upload hook raises an error inside
the workflow (`boom`), yet the returned `SyncResult` has `success = true`
and carries no error message — the inner `try/catch` of the cover step
swallows the exception, clears the cover, and the workflow continues to a
successful completion. The claim's "any error raised inside the workflow
... is converted into a SyncResult with success=false carrying the
error's message" is therefore false as stated. -/
theorem C1_counterexample :
    throwingCoverHooks.upload_image_by_url.isSome = true
    ∧ DSLAdapter.Step.coverUpload
        ∈ DSLAdapter.publishSteps okEnv throwingCoverHooks authDsl coverArticle false
    ∧ (DSLAdapter.publish okEnv throwingCoverHooks authDsl coverArticle false).success = true
    ∧ (DSLAdapter.publish okEnv throwingCoverHooks authDsl coverArticle false).error = none := by
  refine ⟨rfl, by decide, rfl, rfl⟩


theorem except_bind_ok (a : α) (f : α → Except ε β) :
    (Except.ok a >>= f : Except ε β) = f a := rfl

theorem except_bind_error (e : ε) (f : α → Except ε β) :
    ((Except.error e : Except ε α) >>= f) = .error e := rfl

/-- C1 as the code forces it to be amended: the per-platform workflow
never raises past its boundary. `DSLAdapter.publish` is total and converts
any error that escapes the workflow body into a failed `SyncResult`
carrying the message (first conjunct); `SyncEngine.syncToPlatform` is
total and converts a throwing registry lookup, a missing platform, a
throwing auth probe, or a throwing adapter publish into a failed
`SyncResult` with the message, and passes a returned `SyncResult` through
unchanged (remaining conjuncts) — so the orchestrator only ever receives
`SyncResult` values. The one exception to the conversion rule is the
cover-upload hook, whose error is swallowed inside the workflow and does
not surface in the result (see the counterexample). -/
theorem C1_boundary_conversion (env : AdapterEnv) (cl : CustomLogic)
    (dsl : AdapterDSL) (article : Article) (d : Bool)
    (eenv : SyncEngine.EngineEnv) (pid : String) (ad : SyncEngine.EngineAdapter)
    (auth : List (String × JVal)) (r : SyncResult) :
    (∀ e, (DSLAdapter.publishCore env cl dsl article d).1 = .error e →
      DSLAdapter.publish env cl dsl article d
        = { platform := dsl.name, success := false, timestamp := env.now,
            postId := .undefined, postUrl := .undefined, draftOnly := none,
            error := some e })
    ∧ (∀ e, eenv.getAdapter pid = .error e →
      SyncEngine.syncToPlatform eenv article pid
        = { platform := pid, success := false, timestamp := eenv.now,
            error := some e })
    ∧ (eenv.getAdapter pid = .ok none →
      SyncEngine.syncToPlatform eenv article pid
        = { platform := pid, success := false, timestamp := eenv.now,
            error := some ("Platform \x22" ++ pid ++ "\x22 not found") })
    ∧ (∀ e, eenv.getAdapter pid = .ok (some ad) → ad.checkAuth = .error e →
      SyncEngine.syncToPlatform eenv article pid
        = { platform := pid, success := false, timestamp := eenv.now,
            error := some e })
    ∧ (∀ e, eenv.getAdapter pid = .ok (some ad) → ad.checkAuth = .ok auth →
      jvalTruthy (lookupField auth "isAuthenticated") = true →
      ad.publishRun article = .error e →
      SyncEngine.syncToPlatform eenv article pid
        = { platform := pid, success := false, timestamp := eenv.now,
            error := some e })
    ∧ (eenv.getAdapter pid = .ok (some ad) → ad.checkAuth = .ok auth →
      jvalTruthy (lookupField auth "isAuthenticated") = true →
      ad.publishRun article = .ok r →
      SyncEngine.syncToPlatform eenv article pid = r) := by
  refine ⟨?_, ?_, ?_, ?_, ?_, ?_⟩
  · intro e h
    unfold DSLAdapter.publish
    rw [h]
    rfl
  · intro e h
    unfold SyncEngine.syncToPlatform SyncEngine.syncBody
    rw [h, except_bind_error]
  · intro h
    unfold SyncEngine.syncToPlatform SyncEngine.syncBody
    rw [h, except_bind_ok]
    rfl
  · intro e hga hca
    unfold SyncEngine.syncToPlatform SyncEngine.syncBody
    rw [hga, except_bind_ok]
    simp only
    rw [hca, except_bind_error]
  · intro e hga hca hauth hpub
    unfold SyncEngine.syncToPlatform SyncEngine.syncBody
    rw [hga, except_bind_ok]
    simp only
    rw [hca, except_bind_ok, hauth]
    simp only [Bool.not_true, Bool.false_eq_true, if_false]
    rw [hpub]
  · intro hga hca hauth hpub
    unfold SyncEngine.syncToPlatform SyncEngine.syncBody
    rw [hga, except_bind_ok]
    simp only
    rw [hca, except_bind_ok, hauth]
    simp only [Bool.not_true, Bool.false_eq_true, if_false]
    rw [hpub]

/-- A definition whose workflow body throws under `failEnv` (its
create-draft endpoint performs a transport call that fails). -/
def authPublishDsl : AdapterDSL :=
  { name := "p", auth := { check := authEp },
    endpoints := { create_draft := some epCreate } }

def dummyResult : SyncResult := { platform := "", success := true, timestamp := 0 }

def errorAdapter : SyncEngine.EngineAdapter :=
  { checkAuth := .ok [("isAuthenticated", .bool true)],
    publishRun := fun _ => .error "network down" }

def mixedEngine : SyncEngine.EngineEnv :=
  { getAdapter := fun p =>
      if p = "gone" then .ok none
      else if p = "crash" then .error "registry exploded"
      else if p = "bad" then .ok (some errorAdapter)
      else .ok (some (okAdapter p)) }

/-- Witness for C1 at concrete environments: a throwing workflow body, a
throwing registry, a missing platform, and a throwing adapter publish all
surface as failed `SyncResult`s carrying the message. -/
theorem C1_boundary_conversion_witness :
    DSLAdapter.publish failEnv noHooks authPublishDsl emptyArticle false
      = { platform := "p", success := false, timestamp := failEnv.now,
          postId := .undefined, postUrl := .undefined, draftOnly := none,
          error := some "HTTP 401: Unauthorized" }
    ∧ SyncEngine.syncToPlatform mixedEngine emptyArticle "crash"
      = { platform := "crash", success := false, timestamp := mixedEngine.now,
          error := some "registry exploded" }
    ∧ SyncEngine.syncToPlatform mixedEngine emptyArticle "gone"
      = { platform := "gone", success := false, timestamp := mixedEngine.now,
          error := some ("Platform \x22" ++ "gone" ++ "\x22 not found") }
    ∧ SyncEngine.syncToPlatform mixedEngine emptyArticle "bad"
      = { platform := "bad", success := false, timestamp := mixedEngine.now,
          error := some "network down" } :=
  ⟨(C1_boundary_conversion failEnv noHooks authPublishDsl emptyArticle false
      mixedEngine "crash" errorAdapter [] dummyResult).1 "HTTP 401: Unauthorized" rfl,
   (C1_boundary_conversion failEnv noHooks authPublishDsl emptyArticle false
      mixedEngine "crash" errorAdapter [] dummyResult).2.1 "registry exploded" rfl,
   (C1_boundary_conversion failEnv noHooks authPublishDsl emptyArticle false
      mixedEngine "gone" errorAdapter [] dummyResult).2.2.1 rfl,
   (C1_boundary_conversion failEnv noHooks authPublishDsl emptyArticle false
      mixedEngine "bad" errorAdapter
      [("isAuthenticated", .bool true)] dummyResult).2.2.2.2.1 "network down" rfl rfl rfl rfl⟩

/-- C2. With `continueOnError = false` and a positive concurrency, split
the batch list around the first batch `b` containing a failed result
(`hpre` says every earlier batch fully succeeded, `hfail` that `b` has a
failure). Then the collected results are exactly the batches up to and
including `b` — all of `b`'s results appear, successes included — and for
every platform of a later batch there is *no* result at all (in
particular it is not marked failed). `hcoh` states that each per-platform
result carries that platform's id, which holds for every result the
engine itself builds and for any well-behaved adapter. -/
theorem C2_stop_on_failure (env : SyncEngine.EngineEnv) (article : Article)
    (platforms : List String) (c : Nat) (hc : 0 < c) (hnd : platforms.Nodup)
    (hcoh : ∀ p, (SyncEngine.syncToPlatform env article p).platform = p)
    (pre : List (List String)) (b : List String) (post : List (List String))
    (hsplit : SyncEngine.chunk platforms c = pre ++ b :: post)
    (hpre : ∀ batch ∈ pre, ∀ r ∈ batch.map (SyncEngine.syncToPlatform env article),
      r.success = true)
    (hfail : ∃ r ∈ b.map (SyncEngine.syncToPlatform env article), r.success = false) :
    (SyncEngine.sync env article platforms
        { concurrency := some c, continueOnError := some false }).results
      = (pre.flatten ++ b).map (SyncEngine.syncToPlatform env article)
    ∧ ∀ p ∈ post.flatten,
        ¬ ∃ r ∈ (SyncEngine.sync env article platforms
            { concurrency := some c, continueOnError := some false }).results,
          r.platform = p := by
  have h1 : (SyncEngine.sync env article platforms
      { concurrency := some c, continueOnError := some false }).results
      = (pre.flatten ++ b).map (SyncEngine.syncToPlatform env article) := by
    show SyncEngine.runBatches env article false (SyncEngine.chunk platforms c) = _
    rw [hsplit]
    exact SyncEngine.runBatches_stop env article pre b post hpre hfail
  refine ⟨h1, ?_⟩
  intro p hp hex
  obtain ⟨r, hr, hrp⟩ := hex
  rw [h1] at hr
  obtain ⟨q, hq, hfq⟩ := List.mem_map.mp hr
  have hqp : q = p := by rw [← hrp, ← hfq, hcoh q]
  subst hqp
  have hplat : platforms = (pre.flatten ++ b) ++ post.flatten := by
    rw [← SyncEngine.chunk_flatten platforms c hc, hsplit]
    simp [List.flatten_append, List.flatten_cons, List.append_assoc]
  rw [hplat, List.nodup_append] at hnd
  exact hnd.2.2 hq hp

def notFoundEngine : SyncEngine.EngineEnv := { getAdapter := fun _ => .ok none }

/-- Witness for C2: two platforms at concurrency one where the first
platform fails (it is unknown to the registry); the second batch is never
scheduled and `b` has no result. -/
theorem C2_stop_on_failure_witness :
    (SyncEngine.sync notFoundEngine emptyArticle ["a", "b"]
        { concurrency := some 1, continueOnError := some false }).results
      = (([] : List (List String)).flatten ++ ["a"]).map
          (SyncEngine.syncToPlatform notFoundEngine emptyArticle)
    ∧ ∀ p ∈ [["b"]].flatten,
        ¬ ∃ r ∈ (SyncEngine.sync notFoundEngine emptyArticle ["a", "b"]
            { concurrency := some 1, continueOnError := some false }).results,
          r.platform = p :=
  C2_stop_on_failure notFoundEngine emptyArticle ["a", "b"] 1 (by decide) (by decide)
    (fun _ => rfl) [] ["a"] [["b"]] rfl
    (fun batch h => absurd h (List.not_mem_nil _))
    ⟨SyncEngine.syncToPlatform notFoundEngine emptyArticle "a", by simp, rfl⟩

/-- C6. With `concurrency = 1` the collected results are an input-order
prefix of the per-platform results: one result per scheduled platform, in
exactly the order of `platforms` (second conjunct), and with
`continueOnError = true` every platform is scheduled (third conjunct).
`hcoh` as in C2. -/
theorem C6_sequential_order (env : SyncEngine.EngineEnv) (article : Article)
    (platforms : List String) (co : Bool)
    (hcoh : ∀ p, (SyncEngine.syncToPlatform env article p).platform = p) :
    ∃ k, (SyncEngine.sync env article platforms
          { concurrency := some 1, continueOnError := some co }).results
        = (platforms.take k).map (SyncEngine.syncToPlatform env article)
      ∧ ((SyncEngine.sync env article platforms
          { concurrency := some 1, continueOnError := some co }).results).map
            (fun r => r.platform) = platforms.take k
      ∧ (co = true → k = platforms.length) := by
  obtain ⟨k, hk, hco⟩ := SyncEngine.runBatches_one env article co platforms
  have h1 : (SyncEngine.sync env article platforms
      { concurrency := some 1, continueOnError := some co }).results
      = (platforms.take k).map (SyncEngine.syncToPlatform env article) := by
    show SyncEngine.runBatches env article co (SyncEngine.chunk platforms 1) = _
    rw [SyncEngine.chunk_one]
    exact hk
  refine ⟨k, h1, ?_, hco⟩
  rw [h1, List.map_map]
  have : (fun r => SyncResult.platform r) ∘ SyncEngine.syncToPlatform env article
      = fun p => (SyncEngine.syncToPlatform env article p).platform := rfl
  rw [this]
  rw [show (platforms.take k).map (fun p => (SyncEngine.syncToPlatform env article p).platform)
      = (platforms.take k).map (fun p => p) from List.map_congr_left (fun p _ => hcoh p)]
  exact List.map_id _

/-- Witness for C6 at a concrete all-successful engine. -/
theorem C6_sequential_order_witness :
    ∃ k, (SyncEngine.sync allOkEngine emptyArticle ["a", "b"]
          { concurrency := some 1, continueOnError := some true }).results
        = (["a", "b"].take k).map (SyncEngine.syncToPlatform allOkEngine emptyArticle)
      ∧ ((SyncEngine.sync allOkEngine emptyArticle ["a", "b"]
          { concurrency := some 1, continueOnError := some true }).results).map
            (fun r => r.platform) = ["a", "b"].take k
      ∧ (true = true → k = ["a", "b"].length) :=
  C6_sequential_order allOkEngine emptyArticle ["a", "b"] true (fun _ => rfl)

def mkMinimalDoc (nm : String) (method : String) : JVal :=
  .obj [("name", .str nm), ("display_name", .str nm), ("icon", .str "i.png"),
        ("homepage", .str "https://ok.example"),
        ("capabilities", .arr [.str "article"]),
        ("auth", .obj [("check",
          .obj [("request", .obj [("url", .str "https://ok.example/me"),
                  ("method", .str method)]),
                ("response", .obj [])])]),
        ("endpoints", .obj [])]

def goodDoc : JVal := mkMinimalDoc "ok1" "GET"

/-- Fails schema validation: `FETCH` is not in the method enum. -/
def badDoc : JVal := mkMinimalDoc "bad" "FETCH"

def goodDoc2 : JVal := mkMinimalDoc "ok2" "GET"

/-- Counterexample for C8: one invalid definition in the middle of a batch
makes `parseDSLFiles` throw — the valid definitions in the same batch
(before and after it) are *not* loaded; the error is logged and then
re-thrown, aborting the whole map, rather than the item being skipped. -/
theorem C8_counterexample :
    (DslParser.parseDSL badDoc).isOk = false
    ∧ (DslParser.parseDSL goodDoc).isOk = true
    ∧ (DslParser.parseDSL goodDoc2).isOk = true
    ∧ DslParser.parseDSLFiles
        [("a.yaml", goodDoc), ("b.yaml", badDoc), ("c.yaml", goodDoc2)]
        = .error "request.method: invalid enum value" := by
  refine ⟨rfl, rfl, rfl, rfl⟩

/-- C8 as the code forces it to be amended: in `parseDSLFiles` the first
failing definition's error is re-thrown after logging, so the whole batch
aborts and no entry — not even for the valid definitions — is returned
(first conjunct); only `loadAdapters`, which operates on already-parsed
definitions and whose per-item body cannot throw, registers every item
(second conjunct). -/
theorem C8_batch_abort :
    (∀ (pre : List (String × JVal)) (path : String) (doc : JVal)
        (post : List (String × JVal)) (e : String),
      (∀ f ∈ pre, (DslParser.parseDSL f.2).isOk = true) →
      DslParser.parseDSL doc = .error e →
      DslParser.parseDSLFiles (pre ++ (path, doc) :: post) = .error e)
    ∧ (∀ (reg : List PlatformMeta) (adapters : List AdapterDSL),
      DslParser.loadAdapters reg adapters
        = reg ++ adapters.map DslParser.createAdapterFromDSL) := by
  constructor
  · intro pre path doc post e hpre hdoc
    induction pre with
    | nil =>
      unfold DslParser.parseDSLFiles
      rw [List.nil_append]
      simp only [List.mapM_cons, hdoc]
      exact except_bind_error e _
    | cons f pre ih =>
      have hf := hpre f (List.mem_cons_self _ _)
      cases hpf : DslParser.parseDSL f.2 with
      | error e2 => rw [hpf] at hf; exact absurd hf (by simp [Except.isOk, Except.toBool])
      | ok m =>
        have hrest := ih (fun g hg => hpre g (List.mem_cons_of_mem _ hg))
        unfold DslParser.parseDSLFiles at hrest ⊢
        rw [List.cons_append]
        simp only [List.mapM_cons, hpf, except_bind_ok]
        rw [hrest]
        rfl
  · intro reg adapters
    induction adapters generalizing reg with
    | nil => simp [DslParser.loadAdapters]
    | cons a rest ih =>
      show DslParser.loadAdapters (DslParser.loadAdapter reg a) rest = _
      rw [ih]
      simp [DslParser.loadAdapter]

def asYamlFiles : List (String × JVal) :=
  [("a.yaml", goodDoc), ("b.yaml", badDoc), ("c.yaml", goodDoc2)]

/-- Witness for C8 at the concrete batch: the abort with the enum error,
and `loadAdapters` registering both of two parsed definitions. -/
theorem C8_batch_abort_witness :
    DslParser.parseDSLFiles asYamlFiles = .error "request.method: invalid enum value"
    ∧ DslParser.loadAdapters [] [authDsl, draftsDsl]
        = [] ++ [authDsl, draftsDsl].map DslParser.createAdapterFromDSL :=
  ⟨C8_batch_abort.1 [("a.yaml", goodDoc)] "b.yaml" badDoc [("c.yaml", goodDoc2)]
      "request.method: invalid enum value"
      (by intro f h; rw [List.mem_singleton.mp h]; rfl) rfl,
   C8_batch_abort.2 [] [authDsl, draftsDsl]⟩
